import Mathlib

/-!
Verification of goxel's image/document module (src/image.c).

We give a shallow embedding of the document data model (layers, cameras,
materials), the entity lifecycle operations, the synchronization pass
(image_update), the content-key combinator (image_get_key) and the
snapshot-based undo history engine (image_history_push / image_undo /
image_redo), and prove or refute the specified properties about them.

External collaborators that are not part of this source file (the voxel
mesh engine in mesh.c, the per-entity constructors/copiers in layer.c,
camera.c, material.c, and zlib's crc32) are modelled from the spec, as
documented on each such definition.

Modelling conventions:
- C doubly-linked intrusive lists become Lean `List`s in the same order.
- Pointers to list members become identifying keys: a layer is identified
  by its `id` field (unique per document per the documented invariant);
  cameras and materials carry an abstract `ref : Nat` standing for the
  node's address.  Pointer equality becomes key equality; theorems that
  need it carry the corresponding uniqueness hypotheses.
- The implicit global live image `goxel.image` (used as a default argument
  `img ?: goxel.image` throughout image.c, and directly on image.c lines
  321 and 154) is identified with the operated document: every in-repo
  invocation of these operations targets the live image.
- Machine integers (ids, keys) become `Nat`; no arithmetic in this module
  ever overflows or relies on wrapping.
-/

/-- Model of the external 4x4 transform matrix (`mat4`): an abstract token.
The identity matrix set by `mat4_set_identity` is the token 0. -/
abbrev Mat4 := Nat

/-- Modelled from the spec: the external voxel mesh engine (mesh.c) "owns
voxel content; exposes copy, transform, blend-merge, clear, shape-rasterize,
content-key".  We model mesh content as the free algebra over exactly the
operations image.c invokes, so that distinct operation histories give
distinct content values:
- `empty` is a cleared mesh (`mesh_clear`, or a freshly created mesh);
- `atom n` is an arbitrary opaque content value (used to build concrete
  test documents);
- `move m s` is `mesh_move` applied to content `s` (preceded by `mesh_set`
  copying `s` in, as in image_update);
- `rast shape color box m` is the result of `mesh_clear` followed by
  `mesh_op` with an OVER painter carrying the shape, color and box, under
  transform `m` (the shape-layer branch of image_update);
- `merge dst src` is `mesh_merge(dst, src, MODE_OVER)` (src composited
  over dst, as in image_merge_visible_layers).
`mesh_copy`/`mesh_set` are content-preserving, hence the identity on this
value model. -/
inductive Mesh where
  | empty : Mesh
  | atom : Nat → Mesh
  | move : Mat4 → Mesh → Mesh
  | rast : Nat → Nat → Nat → Mat4 → Mesh
  | merge : Mesh → Mesh → Mesh
deriving DecidableEq, Repr

/-- Modelled from the spec: `mesh_get_key` (external, mesh.c), the mesh
"content-key" — idealized as an injective encoding of the content, so that
"key changed" coincides with "content changed". -/
def mesh_get_key : Mesh → Nat
  | .empty => 0
  | .atom n => Nat.pair 0 n + 1
  | .move m s => Nat.pair 1 (Nat.pair m (mesh_get_key s)) + 1
  | .rast sh c b m => Nat.pair 2 (Nat.pair sh (Nat.pair c (Nat.pair b m))) + 1
  | .merge a b => Nat.pair 3 (Nat.pair (mesh_get_key a) (mesh_get_key b)) + 1

/-- Modelled from the spec: the external checksum primitive (zlib crc32),
"streaming, seedable 32-bit composable hash", idealized as an injective
composition operator on `Nat` so that folding distinct data gives distinct
keys. -/
def crc32 (seed k : Nat) : Nat := Nat.pair seed k + 1

/-- Injective encoding of a list of naturals (helper for the idealized
content hashes of named entities). -/
def nat_list_key : List Nat → Nat
  | [] => 0
  | c :: r => Nat.pair c (nat_list_key r) + 1

/-- Injective encoding of a string (helper for idealized content hashes). -/
def str_key (s : String) : Nat := nat_list_key (s.data.map Char.toNat)

/-- Encoding of an optional value (helper for idealized content hashes). -/
def opt_key : Option Nat → Nat
  | none => 0
  | some n => n + 1

/-- A layer (`layer_t`).  Field defaults model `calloc` zero-initialization:
empty name, invisible, identity transform, no material, empty mesh, no clone
source, zeroed cached keys, no shape.  `material` is the weak reference to a
material, by that material's `ref`; `base_id` is the clone-source layer id
with 0 the "no base" sentinel. -/
structure Layer where
  id : Nat := 0
  name : String := ""
  visible : Bool := false
  mat : Mat4 := 0
  material : Option Nat := none
  mesh : Mesh := .empty
  base_id : Nat := 0
  base_mesh_key : Nat := 0
  shape : Option Nat := none
  color : Nat := 0
  shape_key : Nat := 0
deriving DecidableEq, Repr

/-- A camera (`camera_t`): `ref` models the node's address (cameras have no
numeric id in this core); `content` abstracts all camera parameters beyond
the name. -/
structure Camera where
  ref : Nat := 0
  name : String := ""
  content : Nat := 0
deriving DecidableEq, Repr

/-- A material (`material_t`): `ref` models the node's address; `content`
abstracts the material parameters beyond the name. -/
structure Material where
  ref : Nat := 0
  name : String := ""
  content : Nat := 0
deriving DecidableEq, Repr

/-- Modelled from the spec: `layer_get_key` (external, layer.c), "each
layer's structural key", a deterministic function of entity content only
(never of ids or memory identity). -/
def layer_get_key (l : Layer) : Nat :=
  crc32 (crc32 (crc32 (crc32 (crc32 0 (str_key l.name)) (cond l.visible 1 0)) l.mat)
    (mesh_get_key l.mesh)) (Nat.pair (opt_key l.shape) l.color)

/-- Modelled from the spec: `camera_get_key` (external, camera.c), a content
key over the camera's parameters. -/
def camera_get_key (c : Camera) : Nat := Nat.pair (str_key c.name) c.content

/-- Modelled from the spec: `material_get_hash` (external, material.c), "a
content hash exposed by the external material component". -/
def material_get_hash (m : Material) : Nat := Nat.pair (str_key m.name) m.content

/-- The document (`image_t`), without its history links (those are handled
by the zipper `HImage` below, mirroring the `history`/`history_prev`/
`history_next` chain).  `activeLayer` holds the active layer's id,
`activeCamera`/`activeMaterial` the active node's `ref` (all modelling the
weak C pointers). -/
structure Image where
  layers : List Layer
  activeLayer : Option Nat
  cameras : List Camera
  activeCamera : Option Nat
  materials : List Material
  activeMaterial : Option Nat
  box : Nat
  exportWidth : Nat
  exportHeight : Nat
  path : Option String
  savedKey : Nat
deriving DecidableEq, Repr

/-- Model of the C default-argument idiom `x = x ?: y`. -/
def optOr (a b : Option Nat) : Option Nat :=
  match a with
  | some x => some x
  | none => b

/-- `strcasecmp(m->name, name) == 0`: case-insensitive name equality. -/
def name_eq_ci (a b : String) : Bool := a.toLower == b.toLower

/-- Whether a candidate name exists in a name list, case-insensitively
(`layer_name_exists` / `camera_name_exists` / `material_name_exists`,
image.c lines 54-82, each a `DL_FOREACH` + `strcasecmp`). -/
def name_used (names : List String) (cand : String) : Bool :=
  names.any (fun n => name_eq_ci n cand)

/-- Search loop of `make_uniq_name` (image.c lines 84-93): try
`base ++ "." ++ i` for i = 1, 2, ... and return the first unused candidate.
The C loop is unbounded; we give it fuel `names.length + 1`, which always
suffices: the candidates are pairwise distinct even case-insensitively, and
each existing name can block at most one of them. -/
def uniq_name_go (base : String) (names : List String) : Nat → Nat → String
  | 0, i => base ++ "." ++ toString i
  | fuel + 1, i =>
    let cand := base ++ "." ++ toString i
    if name_used names cand then uniq_name_go base names fuel (i + 1) else cand

/-- `make_uniq_name` (image.c lines 84-93) over the existing-name list. -/
def make_uniq_name (base : String) (names : List String) : String :=
  uniq_name_go base names (names.length + 1) 1

/-- Whether some layer in the list already uses id `i`
(the inner `DL_FOREACH` of `img_get_new_id`, image.c lines 105-115). -/
def id_used (L : List Layer) (i : Nat) : Bool := L.any (fun l => l.id == i)

/-- Search loop of `img_get_new_id` (image.c lines 105-115): smallest unused
positive id.  The C loop is unbounded; fuel `L.length + 1` always suffices
since each of the `L.length + 1` distinct candidates can be blocked only by
a distinct list element. -/
def new_id_go (L : List Layer) : Nat → Nat → Nat
  | 0, i => i
  | fuel + 1, i => if id_used L i then new_id_go L fuel (i + 1) else i

/-- `img_get_new_id` (image.c lines 105-115), on the layer list. -/
def img_get_new_id_l (L : List Layer) : Nat := new_id_go L (L.length + 1) 1

/-- `img_get_layer` (image.c lines 95-103): resolve a layer id; `none` for
the id-0 sentinel.  A non-zero id that is absent hits `assert(false)` in C
(and returns NULL under NDEBUG); we return `none` there, matching the
NDEBUG behavior, and note it at each use site. -/
def img_get_layer_l (L : List Layer) (id : Nat) : Option Layer :=
  if id = 0 then none else L.find? (fun l => l.id == id)

/-- Modelled from the spec: `layer_new` (external, layer.c) constructs a
fresh zero-initialized layer with the given name. -/
def layer_new (name : String) : Layer := { name := name }

/-- Modelled from the spec: `layer_copy` (external, layer.c) performs a
deep, content-preserving copy; on our value model it is the identity. -/
def layer_copy (l : Layer) : Layer := l

/-- Modelled from the spec: `camera_new` (external, camera.c). -/
def camera_new (name : String) : Camera := { name := name }

/-- Modelled from the spec: `camera_copy` (external, camera.c), deep
content-preserving copy. -/
def camera_copy (c : Camera) : Camera := c

/-- Modelled from the spec: `material_new` (external, material.c). -/
def material_new (name : String) : Material := { name := name }

/-- Modelled from the spec: `material_copy` (external, material.c), deep
content-preserving copy. -/
def material_copy (m : Material) : Material := m

/-- `layer_clone` (image.c lines 117-131): fresh layer named after the
source with a " clone" suffix, sharing the source's visibility and material
reference, with copied mesh content, identity transform, `base_id` pointing
at the source, and the source mesh's current content key cached.  (The C
snprintf truncates the name to the fixed-size name buffer of `layer_t`,
whose size lives outside this file; truncation is not modelled.)  All other
fields are `calloc`-zeroed. -/
def layer_clone (other : Layer) : Layer :=
  { name := other.name ++ " clone",
    visible := other.visible,
    material := other.material,
    mesh := other.mesh,
    mat := 0,
    base_id := other.id,
    base_mesh_key := mesh_get_key other.mesh }

/-- Fresh camera address for `camera_new` allocations inside
`image_add_camera`: any value unused by the current list. -/
def fresh_cam_ref (cams : List Camera) : Nat :=
  cams.foldl (fun a c => max a c.ref) 0 + 1

/-- Fresh material address for `material_new` allocations inside
`image_add_material`. -/
def fresh_mat_ref (mats : List Material) : Nat :=
  mats.foldl (fun a m => max a m.ref) 0 + 1

/-- `image_add_layer` (image.c lines 275-289).  If no layer is supplied, a
fresh one is constructed with a unique auto-generated name.  In both cases
the function then unconditionally sets `visible = true`, assigns a freshly
allocated id, points `material` at the document's active material, appends
the layer and makes it active. -/
def image_add_layer (img : Image) (arg : Option Layer) : Image :=
  let layer :=
    match arg with
    | some l => l
    | none => layer_new (make_uniq_name "Layer" (img.layers.map Layer.name))
  let layer := { layer with
    visible := true,
    id := img_get_new_id_l img.layers,
    material := img.activeMaterial }
  { img with layers := img.layers ++ [layer], activeLayer := some layer.id }

/-- `image_delete_layer` (image.c lines 312-335).  The target defaults to
the active layer; C dereferences it unconditionally, so theorems supply a
target (we return the document unchanged when none resolves).  Steps, in
source order: unlink the target; clear the active reference if it was the
target; reset `base_id` to 0 on every remaining layer cloned from it (the
C loop at line 321 iterates `goxel.image->layers`, identified with this
document's layers per the conventions above); free it; if the list became
empty synthesize a visible placeholder named "unnamed" with a fresh id;
finally, if the active reference is unset, point it at `img->layers->prev`,
which in a utlist doubly-linked list is the tail. -/
def image_delete_layer (img : Image) (arg : Option Nat) : Image :=
  match optOr arg img.activeLayer with
  | none => img
  | some r =>
    let layers1 := img.layers.eraseP (fun l => l.id == r)
    let act1 := if img.activeLayer = some r then none else img.activeLayer
    let layers2 := layers1.map (fun o => if o.base_id = r then { o with base_id := 0 } else o)
    let layers3 :=
      if layers2 = [] then
        [{ layer_new "unnamed" with visible := true, id := img_get_new_id_l ([] : List Layer) }]
      else layers2
    { img with
      layers := layers3,
      activeLayer := match act1 with
        | some a => some a
        | none => layers3.getLast?.map Layer.id }

/-- Adjacent-transposition helper: swap positions `i` and `i+1`. -/
def swapAdj {α : Type} : List α → Nat → List α
  | a :: b :: rest, 0 => b :: a :: rest
  | x :: rest, n + 1 => x :: swapAdj rest n
  | l, _ => l

/-- `image_move_layer` (image.c lines 337-352).  `d = -1` swaps the layer
with its successor (no-op at the tail: after the C `SWAP` the null
successor triggers the early return); any other `d` (the assert restricts
callers to `+1`) swaps it with its predecessor unless the layer is the list
head.  The layer is resolved by id (C passes the node pointer). -/
def image_move_layer (img : Image) (arg : Option Nat) (d : Int) : Image :=
  match optOr arg img.activeLayer with
  | none => img
  | some r =>
    match img.layers.findIdx? (fun l => l.id == r) with
    | none => img
    | some i =>
      if d = -1 then
        if i + 1 = img.layers.length then img
        else { img with layers := swapAdj img.layers i }
      else
        if i = 0 then img
        else { img with layers := swapAdj img.layers (i - 1) }

/-- `image_duplicate_layer` (image.c lines 364-375): deep copy of the
target (defaulting to the active layer), made visible, given a fresh id,
appended and made active. -/
def image_duplicate_layer (img : Image) (arg : Option Nat) : Image :=
  match optOr arg img.activeLayer with
  | none => img
  | some r =>
    match img.layers.find? (fun l => l.id == r) with
    | none => img
    | some other =>
      let layer := { layer_copy other with
        visible := true, id := img_get_new_id_l img.layers }
      { img with layers := img.layers ++ [layer], activeLayer := some layer.id }

/-- `image_clone_layer` (image.c lines 377-388): `layer_clone` of the
target, made visible, given a fresh id, appended and made active. -/
def image_clone_layer (img : Image) (arg : Option Nat) : Image :=
  match optOr arg img.activeLayer with
  | none => img
  | some r =>
    match img.layers.find? (fun l => l.id == r) with
    | none => img
    | some other =>
      let layer := { layer_clone other with
        visible := true, id := img_get_new_id_l img.layers }
      { img with layers := img.layers ++ [layer], activeLayer := some layer.id }

/-- The per-layer effect of `image_unclone_layer` (image.c lines 390-396):
clear the clone source and the shape descriptor. -/
def unclone_layer (l : Layer) : Layer := { l with base_id := 0, shape := none }

/-- `image_unclone_layer` (image.c lines 390-396) on the document. -/
def image_unclone_layer (img : Image) (arg : Option Nat) : Image :=
  match optOr arg img.activeLayer with
  | none => img
  | some r =>
    { img with layers := img.layers.map (fun l =>
        if l.id == r then unclone_layer l else l) }

/-- `image_select_parent_layer` (image.c lines 398-403): unconditionally
assigns `active_layer = img_get_layer(img, layer->base_id)` — which is NULL
when `base_id` is 0, and an assertion failure (NULL under NDEBUG) when the
id is absent. -/
def image_select_parent_layer (img : Image) (arg : Option Nat) : Image :=
  match optOr arg img.activeLayer with
  | none => img
  | some r =>
    match img.layers.find? (fun l => l.id == r) with
    | none => img
    | some layer =>
      { img with activeLayer := (img_get_layer_l img.layers layer.base_id).map Layer.id }

/-- Recursion of `image_merge_visible_layers` (image.c lines 405-420) over
the layer list, carrying the running accumulator `last`.  A visible layer
is uncloned, receives the accumulator's mesh composited over its own
(`mesh_merge(layer->mesh, last->mesh, MODE_OVER)`), and becomes the new
accumulator; the previous accumulator node is unlinked and freed.  Hence a
visible layer remains in the resulting list exactly when no later visible
layer exists to merge it away, which is the `rest.any` test below.
Invisible layers are left in place.  Returns the resulting list and the
final accumulator. -/
def merge_vis_go (acc : Option Layer) : List Layer → List Layer × Option Layer
  | [] => ([], acc)
  | l :: rest =>
    if l.visible then
      let l1 := unclone_layer l
      let l2 :=
        match acc with
        | some la => { l1 with mesh := Mesh.merge l1.mesh la.mesh }
        | none => l1
      let r := merge_vis_go (some l2) rest
      if rest.any (fun x => x.visible) then r else (l2 :: r.1, r.2)
    else
      let r := merge_vis_go acc rest
      (l :: r.1, r.2)

/-- `image_merge_visible_layers` (image.c lines 405-420): run the merge
over the list; if any visible layer was found the final accumulator becomes
the active layer. -/
def image_merge_visible_layers (img : Image) : Image :=
  let r := merge_vis_go none img.layers
  { img with
    layers := r.1,
    activeLayer := match r.2 with
      | some l => some l.id
      | none => img.activeLayer }

/-- `image_add_camera` (image.c lines 423-434): construct a fresh uniquely
named camera when none is supplied (at a fresh address), append, make
active. -/
def image_add_camera (img : Image) (arg : Option Camera) : Image :=
  let cam :=
    match arg with
    | some c => c
    | none => { camera_new (make_uniq_name "Camera" (img.cameras.map Camera.name)) with
                  ref := fresh_cam_ref img.cameras }
  { img with cameras := img.cameras ++ [cam], activeCamera := some cam.ref }

/-- `image_delete_camera` (image.c lines 436-445): resolve the target
(defaulting to the active camera; early return when none), unlink it, and
if it was the active camera re-point the active reference at the new list
head (null when the list emptied). -/
def image_delete_camera (img : Image) (arg : Option Nat) : Image :=
  match optOr arg img.activeCamera with
  | none => img
  | some r =>
    let cams := img.cameras.eraseP (fun c => c.ref == r)
    { img with
      cameras := cams,
      activeCamera := if img.activeCamera = some r then cams.head?.map Camera.ref
                      else img.activeCamera }

/-- `image_move_camera` (image.c lines 447-464): same neighbor-swap logic
as `image_move_layer`, with an early return when no camera resolves. -/
def image_move_camera (img : Image) (arg : Option Nat) (d : Int) : Image :=
  match optOr arg img.activeCamera with
  | none => img
  | some r =>
    match img.cameras.findIdx? (fun c => c.ref == r) with
    | none => img
    | some i =>
      if d = -1 then
        if i + 1 = img.cameras.length then img
        else { img with cameras := swapAdj img.cameras i }
      else
        if i = 0 then img
        else { img with cameras := swapAdj img.cameras (i - 1) }

/-- `image_add_material` (image.c lines 476-488): construct a fresh
uniquely named material when none is supplied (at a fresh address), append,
make active. -/
def image_add_material (img : Image) (arg : Option Material) : Image :=
  let mat :=
    match arg with
    | some m => m
    | none => { material_new (make_uniq_name "Material" (img.materials.map Material.name)) with
                  ref := fresh_mat_ref img.materials }
  { img with materials := img.materials ++ [mat], activeMaterial := some mat.ref }

/-- `image_delete_material` (image.c lines 490-502): resolve the target
(defaulting to the active material; early return when none), unlink it,
null the active reference if it was the target (without reassigning it),
free it, and null every layer's material reference that pointed at it. -/
def image_delete_material (img : Image) (arg : Option Nat) : Image :=
  match optOr arg img.activeMaterial with
  | none => img
  | some r =>
    { img with
      materials := img.materials.eraseP (fun m => m.ref == r),
      activeMaterial := if img.activeMaterial = some r then none else img.activeMaterial,
      layers := img.layers.map (fun l =>
        if l.material = some r then { l with material := none } else l) }

/-- Resolve a layer's clone source to its list index, as `img_get_layer`
does (image.c lines 95-103, first node with the matching id; `none` for the
id-0 sentinel and — matching NDEBUG — for an absent id, which asserts). -/
def find_base_idx (L : List Layer) (b : Nat) : Option Nat :=
  if b = 0 then none else L.findIdx? (fun l => l.id == b)

/-- Body of the clone-synchronization branch once the source layer `base`
at position `j` has been resolved, for the dependent layer at position `i`:
if the source's current mesh content key differs from the cached
`base_mesh_key`, copy the source content in (`mesh_set`), reapply the
layer's own transform (`mesh_move`) and re-cache the source key.  The
re-cache reads `base->mesh` after the move, so when the source node is the
layer itself (`j = i`, pointer aliasing in C) the cached key is that of the
already-moved mesh. -/
def sync_base_with (i j : Nat) (base layer : Layer) : Layer :=
  if layer.base_mesh_key = mesh_get_key base.mesh then layer
  else
    let m := Mesh.move layer.mat base.mesh
    { layer with
      mesh := m,
      base_mesh_key := mesh_get_key (if j = i then m else base.mesh) }

/-- Clone-synchronization branch of `image_update` (image.c lines 141-146)
for the layer at position `i`: resolve the source by id and apply
`sync_base_with`; no-op when the source does not resolve (`base_id` 0, or —
matching NDEBUG — an absent id). -/
def sync_base (L : List Layer) (i : Nat) (layer : Layer) : Layer :=
  match find_base_idx L layer.base_id with
  | none => layer
  | some j =>
    match L[j]? with
    | none => layer
    | some base => sync_base_with i j base layer

/-- The combined key over (transform, shape, color) computed by
`image_update` (image.c lines 148-150) as a chained crc32. -/
def shape_key_of (l : Layer) (sh : Nat) : Nat :=
  crc32 (crc32 (crc32 0 l.mat) sh) l.color

/-- Shape branch of `image_update` (image.c lines 147-160): for a layer
carrying a shape descriptor, if the combined (transform, shape, color) key
differs from the cached `shape_key`, clear the mesh and rasterize the shape
into it (an OVER painter over `goxel.image->box`, identified with this
document's box), then cache the key. -/
def sync_shape (box : Nat) (l : Layer) : Layer :=
  match l.shape with
  | none => l
  | some sh =>
    let key := shape_key_of l sh
    if key = l.shape_key then l
    else { l with mesh := Mesh.rast sh l.color box l.mat, shape_key := key }

/-- One iteration of `image_update`'s `DL_FOREACH` on the layer at
position `i`: both branches applied in source order, the node updated in
place. -/
def image_update_step (box : Nat) (L : List Layer) (i : Nat) : List Layer :=
  match L[i]? with
  | none => L
  | some layer => L.set i (sync_shape box (sync_base L i layer))

/-- The `DL_FOREACH` of `image_update` from position `i` on, with explicit
fuel (the list's length is invariant under the steps, so fuel
`L.length` from position 0 visits every node exactly once, in order). -/
def upd_from (box : Nat) : List Layer → Nat → Nat → List Layer
  | L, _, 0 => L
  | L, i, fuel + 1 => upd_from box (image_update_step box L i) (i + 1) fuel

/-- The full traversal of `image_update` over the layer list. -/
def image_update_layers (box : Nat) (L : List Layer) : List Layer :=
  upd_from box L 0 L.length

/-- `image_update` (image.c lines 134-162), the synchronization pass. -/
def image_update (img : Image) : Image :=
  { img with layers := image_update_layers img.box img.layers }

/-- The per-entity content keys of a document, in list order: layers, then
cameras, then materials (the folding order of `image_get_key`). -/
def entity_keys (img : Image) : List Nat :=
  img.layers.map layer_get_key ++ img.cameras.map camera_get_key
    ++ img.materials.map material_get_hash

/-- `image_get_key` (image.c lines 636-656): fold each layer's key, then
each camera's key, then each material's hash into one document key, seeded
at 0, via the checksum primitive. -/
def image_get_key (img : Image) : Nat :=
  let k1 := img.layers.foldl (fun k l => crc32 k (layer_get_key l)) 0
  let k2 := img.cameras.foldl (fun k c => crc32 k (camera_get_key c)) k1
  img.materials.foldl (fun k m => crc32 k (material_get_hash m)) k2

/-- Modelled from the spec: the box `bbox_from_aabb` builds for a new image
(image.c lines 168-169); an abstract token, as boxes are opaque here. -/
def image_new_box : Nat := 0

/-- `image_new` (image.c lines 164-184).  Zero-initialized document, box
and export sizes set, one default material, camera and layer added (each
auto-named, appended, made active).  The returned layer — the sole list
node — is then mutated in place (lines 175-178): `visible = true` (already
true), a second id allocation now finds id 1 taken by the layer itself and
assigns 2, `material` is re-pointed at the active material (unchanged), and
the re-append of the current sole tail node leaves the utlist structure
unchanged.  Line 180 re-marks it active; line 182 records the fresh
document key as `saved_key`.  (Line 179's history append is modelled by
`image_new_h`.) -/
def image_new : Image :=
  let i0 : Image :=
    { layers := [], activeLayer := none, cameras := [],
      activeCamera := none, materials := [], activeMaterial := none,
      box := image_new_box, exportWidth := 1024, exportHeight := 1024,
      path := none, savedKey := 0 }
  let i1 := image_add_material i0 none
  let i2 := image_add_camera i1 none
  let i3 := image_add_layer i2 none
  let newId := img_get_new_id_l i3.layers
  let i4 : Image := { i3 with layers := i3.layers.map (fun l =>
    { l with visible := true, id := newId, material := i3.activeMaterial }) }
  let i5 : Image := { i4 with activeLayer := i4.layers.head?.map Layer.id }
  { i5 with savedKey := image_get_key i5 }

/-- The live document as the "current" node of its own doubly-linked
history chain (image.c lines 23-51): `before` and `after` hold the
snapshot nodes strictly before and after the current position, in chain
order.  `img->history == img` (nothing to undo) corresponds to
`before = []`; `img->history_next == NULL` (nothing to redo) to
`after = []`. -/
structure HImage where
  before : List Image
  img : Image
  after : List Image
deriving DecidableEq, Repr

/-- `image_snap` (image.c lines 186-233): a deep copy of the document
content — every collection copied via the external copy helpers with the
`active_*` references and the layers' material references remapped to the
copies — detached from the chain.  On our value model (content-preserving
copies, references stored as keys) the content copy is the identity. -/
def image_snap (img : Image) : Image := img

/-- The chain of a freshly created image: `image_new` appends the live
image to its own (empty) history (image.c line 179). -/
def image_new_h : HImage := ⟨[], image_new, []⟩

/-- `image_history_push` (image.c lines 533-549): snapshot the current
content; unlink and free every node after the current position (the
"discard previous undo" loop); then re-splice so the chain ends with the
snapshot followed by the live node. -/
def image_history_push (s : HImage) : HImage :=
  ⟨s.before ++ [image_snap s.img], s.img, []⟩

/-- `image_undo` (image.c lines 585-596): no-op (logged) when the live node
is the chain head; otherwise relink the live node one position earlier and
swap its entire content with its former predecessor (`swap`, lines
577-583, exchanges all content but leaves the chain pointers), so the live
document now holds the predecessor's content and the node after it holds
the previously-live content. -/
def image_undo (s : HImage) : HImage :=
  match s.before.getLast? with
  | none => s
  | some prev => ⟨s.before.dropLast, prev, s.img :: s.after⟩

/-- `image_redo` (image.c lines 598-609): symmetric to `image_undo`; no-op
(logged) when the live node has no successor. -/
def image_redo (s : HImage) : HImage :=
  match s.after with
  | [] => s
  | nxt :: rest => ⟨s.before ++ [s.img], nxt, rest⟩

/-- An arbitrary mutation of the live document: every entity-lifecycle
operation writes the live image's content and never touches the history
links. -/
def mutateLive (m : Image → Image) (s : HImage) : HImage :=
  ⟨s.before, m s.img, s.after⟩

/-- Observational equality of two documents: same layer ids, names and
content keys in the same list order, and likewise for cameras and
materials. -/
def obsEq (a b : Image) : Prop :=
  a.layers.map (fun l => (l.id, l.name, layer_get_key l))
    = b.layers.map (fun l => (l.id, l.name, layer_get_key l)) ∧
  a.cameras.map (fun c => (c.name, camera_get_key c))
    = b.cameras.map (fun c => (c.name, camera_get_key c)) ∧
  a.materials.map (fun m => (m.name, material_get_hash m))
    = b.materials.map (fun m => (m.name, material_get_hash m))

instance (a b : Image) : Decidable (obsEq a b) := by
  unfold obsEq; infer_instance

/-- The lifecycle operations over which the active-reference invariant is
claimed: add/delete/move/duplicate/clone for layers, add/delete/move for
cameras, add/delete for materials. -/
inductive Op where
  | addLayer (arg : Option Layer)
  | deleteLayer (arg : Option Nat)
  | moveLayer (arg : Option Nat) (d : Int)
  | duplicateLayer (arg : Option Nat)
  | cloneLayer (arg : Option Nat)
  | addCamera (arg : Option Camera)
  | deleteCamera (arg : Option Nat)
  | moveCamera (arg : Option Nat) (d : Int)
  | addMaterial (arg : Option Material)
  | deleteMaterial (arg : Option Nat)
deriving DecidableEq, Repr

/-- Dispatch an operation to its image.c implementation. -/
def applyOp (img : Image) : Op → Image
  | .addLayer a => image_add_layer img a
  | .deleteLayer a => image_delete_layer img a
  | .moveLayer a d => image_move_layer img a d
  | .duplicateLayer a => image_duplicate_layer img a
  | .cloneLayer a => image_clone_layer img a
  | .addCamera a => image_add_camera img a
  | .deleteCamera a => image_delete_camera img a
  | .moveCamera a d => image_move_camera img a d
  | .addMaterial a => image_add_material img a
  | .deleteMaterial a => image_delete_material img a

/-- A weak reference is valid for a collection exactly when it names a
member, and is null only while the collection is empty (the claimed
active-reference rule). -/
def ref_ok {α : Type} (f : α → Nat) (coll : List α) : Option Nat → Prop
  | some r => ∃ x ∈ coll, f x = r
  | none => coll = []

instance refOkDec {α : Type} [DecidableEq α] (f : α → Nat) (coll : List α) :
    (o : Option Nat) → Decidable (ref_ok f coll o)
  | some r => inferInstanceAs (Decidable (∃ x ∈ coll, f x = r))
  | none => inferInstanceAs (Decidable (coll = []))

/-- Weak validity: a null reference is always allowed (what deleting the
active material actually leaves behind). -/
def ref_ok_weak {α : Type} (f : α → Nat) (coll : List α) : Option Nat → Prop
  | some r => ∃ x ∈ coll, f x = r
  | none => True

instance refOkWeakDec {α : Type} [DecidableEq α] (f : α → Nat) (coll : List α) :
    (o : Option Nat) → Decidable (ref_ok_weak f coll o)
  | some r => inferInstanceAs (Decidable (∃ x ∈ coll, f x = r))
  | none => inferInstanceAs (Decidable True)

/-- The active-reference invariant exactly as the claim states it, for all
three collections. -/
def active_inv (img : Image) : Prop :=
  ref_ok Layer.id img.layers img.activeLayer ∧
  ref_ok Camera.ref img.cameras img.activeCamera ∧
  ref_ok Material.ref img.materials img.activeMaterial

instance (img : Image) : Decidable (active_inv img) := by
  unfold active_inv; infer_instance

/-- The amended active-reference invariant: the layer list is additionally
never empty (so the active layer is always set and a member); the camera
clause is as claimed; the material clause is weakened to allow a null
active material even while materials remain, which is the state
`image_delete_material` leaves after deleting the active material. -/
def active_inv_amended (img : Image) : Prop :=
  img.layers ≠ [] ∧
  ref_ok Layer.id img.layers img.activeLayer ∧
  ref_ok Camera.ref img.cameras img.activeCamera ∧
  ref_ok_weak Material.ref img.materials img.activeMaterial

instance (img : Image) : Decidable (active_inv_amended img) := by
  unfold active_inv_amended; infer_instance

/-- Structural well-formedness the documents maintain (documented
invariants): positive unique layer ids; distinct camera and material
addresses (distinct heap nodes). -/
def wf_image (img : Image) : Prop :=
  (∀ l ∈ img.layers, 0 < l.id) ∧
  (img.layers.map Layer.id).Nodup ∧
  (img.cameras.map Camera.ref).Nodup ∧
  (img.materials.map Material.ref).Nodup

instance (img : Image) : Decidable (wf_image img) := by
  unfold wf_image; infer_instance

/-- A supplied node is fresh for a collection (a distinct heap node, as any
caller-allocated C node is). -/
def fresh_opt {α : Type} (f : α → Nat) (coll : List α) : Option α → Prop
  | some c => ∀ x ∈ coll, f x ≠ f c
  | none => True

instance freshOptDec {α : Type} (f : α → Nat) (coll : List α) :
    (o : Option α) → Decidable (fresh_opt f coll o)
  | some c => inferInstanceAs (Decidable (∀ x ∈ coll, f x ≠ f c))
  | none => inferInstanceAs (Decidable True)

/-- Caller obligations under which each operation is C-defined: an
explicitly supplied target must be a member of its list (C unlinks it
without looking it up), and a supplied node to add must be fresh. -/
def opOk (img : Image) : Op → Prop
  | .addLayer _ => True
  | .deleteLayer a => ref_ok_weak Layer.id img.layers a
  | .moveLayer a _ => ref_ok_weak Layer.id img.layers a
  | .duplicateLayer a => ref_ok_weak Layer.id img.layers a
  | .cloneLayer a => ref_ok_weak Layer.id img.layers a
  | .addCamera a => fresh_opt Camera.ref img.cameras a
  | .deleteCamera a => ref_ok_weak Camera.ref img.cameras a
  | .moveCamera a _ => ref_ok_weak Camera.ref img.cameras a
  | .addMaterial a => fresh_opt Material.ref img.materials a
  | .deleteMaterial a => ref_ok_weak Material.ref img.materials a

instance opOkDec (img : Image) : (op : Op) → Decidable (opOk img op)
  | .addLayer _ => inferInstanceAs (Decidable True)
  | .deleteLayer a => inferInstanceAs (Decidable (ref_ok_weak Layer.id img.layers a))
  | .moveLayer a _ => inferInstanceAs (Decidable (ref_ok_weak Layer.id img.layers a))
  | .duplicateLayer a => inferInstanceAs (Decidable (ref_ok_weak Layer.id img.layers a))
  | .cloneLayer a => inferInstanceAs (Decidable (ref_ok_weak Layer.id img.layers a))
  | .addCamera a => inferInstanceAs (Decidable (fresh_opt Camera.ref img.cameras a))
  | .deleteCamera a => inferInstanceAs (Decidable (ref_ok_weak Camera.ref img.cameras a))
  | .moveCamera a _ => inferInstanceAs (Decidable (ref_ok_weak Camera.ref img.cameras a))
  | .addMaterial a => inferInstanceAs (Decidable (fresh_opt Material.ref img.materials a))
  | .deleteMaterial a => inferInstanceAs (Decidable (ref_ok_weak Material.ref img.materials a))

/-- A single layer is "clean" for the synchronization pass: its clone
branch and its shape branch would both skip (cached keys match). -/
def layer_cleanb (L : List Layer) (l : Layer) : Bool :=
  (match find_base_idx L l.base_id with
   | none => true
   | some j =>
     match L[j]? with
     | none => true
     | some b => l.base_mesh_key == mesh_get_key b.mesh) &&
  (match l.shape with
   | none => true
   | some sh => shape_key_of l sh == l.shape_key)

/-- "Nothing dirty": the synchronization pass finds every layer clean. -/
def nothing_dirtyb (img : Image) : Bool :=
  img.layers.all (fun l => layer_cleanb img.layers l)

/-- Every clone source resolves to a strictly earlier position in the
layer list (the natural state: `image_clone_layer` appends clones after
their sources). -/
def bases_backwardb (L : List Layer) : Bool :=
  (List.range L.length).all (fun i =>
    match L[i]? with
    | none => true
    | some layer =>
      match find_base_idx L layer.base_id with
      | none => true
      | some j => decide (j < i))

/-- Concrete fixture: a one-layer one-camera one-material document. -/
def testLayer : Layer := { id := 1, name := "L1", visible := true, mesh := .atom 1 }

/-- Concrete fixture document for witnesses. -/
def testImg : Image :=
  { layers := [testLayer], activeLayer := some 1,
    cameras := [{ ref := 1, name := "C1" }], activeCamera := some 1,
    materials := [{ ref := 1, name := "M1" }], activeMaterial := some 1,
    box := 0, exportWidth := 1024, exportHeight := 1024, path := none,
    savedKey := 0 }

/-- A second document content, distinguishable from `testImg`. -/
def testImg2 : Image := { testImg with exportWidth := 7 }

/-- Fixture for the select-parent counterexample: a single layer with the
`base_id = 0` sentinel, currently active. -/
def parentTestImg : Image :=
  { testImg with layers := [{ id := 1, name := "L1", visible := true, base_id := 0 }] }

/-- Fixture for the amended select-parent witness: layer 1 is a clone of
layer 2. -/
def parentTestImg2 : Image :=
  { testImg with
    layers := [{ id := 1, name := "L1", visible := true, base_id := 2 },
               { id := 2, name := "L2", visible := true }] }

/-- Fixture for the merge witness: three visible layers and an invisible
one. -/
def mergeTestImg : Image :=
  { testImg with
    layers := [{ id := 1, name := "V1", visible := true, mesh := .atom 1 },
               { id := 2, name := "V2", visible := true, mesh := .atom 2 },
               { id := 3, name := "V3", visible := true, mesh := .atom 3, base_id := 1 },
               { id := 4, name := "V4", visible := false, mesh := .atom 4 }],
    activeLayer := some 1 }

/-- Fixture for the delete-material counterexample: two materials, the
second active. -/
def matTestImg : Image :=
  { testImg with
    materials := [{ ref := 1, name := "M1" }, { ref := 2, name := "M2" }],
    activeMaterial := some 2 }

/-- Fixture for the synchronization-pass counterexample: layer 1 is a
stale clone of layer 2, which sits later in the list and is itself a stale
shape layer — the pass rasterizes the source only after syncing the clone,
so a second pass syncs the clone again. -/
def updFwdImg : Image :=
  { testImg with
    layers := [{ id := 1, base_id := 2, base_mesh_key := 999, mesh := .atom 10, mat := 5 },
               { id := 2, shape := some 3, shape_key := 0, mesh := .atom 20, color := 7,
                 mat := 6 }] }

/-- Fixture for the amended synchronization-pass witness: a stale clone
placed after its source. -/
def updBwdImg : Image :=
  { testImg with
    layers := [{ id := 1, mesh := .atom 10 },
               { id := 2, base_id := 1, base_mesh_key := 999, mesh := .atom 20, mat := 3 }] }

/-- Fixture for the delete-layer witness: layers 1 and 3 are clones of
layer 2, which is active. -/
def deleteTestImg : Image :=
  { testImg with
    layers := [{ id := 1, name := "a", visible := true, base_id := 2 },
               { id := 2, name := "b", visible := true },
               { id := 3, name := "c", visible := true, base_id := 2 }],
    activeLayer := some 2 }

/-- Propositional form of `bases_backwardb`: every resolved clone source
sits at a strictly earlier list position than its dependent. -/
def BwdP (L : List Layer) : Prop :=
  ∀ i layer, L[i]? = some layer → ∀ j, find_base_idx L layer.base_id = some j → j < i

theorem filter_length_mono {α : Type} (p q : α → Bool) (h : ∀ x, p x = true → q x = true) :
    ∀ l : List α, (l.filter p).length ≤ (l.filter q).length := by
  intro l
  induction l with
  | nil => simp
  | cons a t ih =>
    cases hp : p a with
    | true =>
      simp only [List.filter_cons, hp, h a hp, List.length_cons, if_true]
      omega
    | false =>
      cases hq : q a with
      | true =>
        simp [List.filter_cons, hp, hq]
        omega
      | false =>
        simp only [List.filter_cons, hp, hq]
        simpa using ih

theorem length_filter_lt_of_mem {L : List Layer} {i : Nat}
    (hex : ∃ l ∈ L, l.id = i) :
    (L.filter (fun l => decide (i + 1 ≤ l.id))).length
      < (L.filter (fun l => decide (i ≤ l.id))).length := by
  induction L with
  | nil => simp at hex
  | cons a t ih =>
    obtain ⟨l, hl, hid⟩ := hex
    rcases List.mem_cons.mp hl with rfl | hlt
    · have mono := filter_length_mono (fun l : Layer => decide (i + 1 ≤ l.id))
        (fun l : Layer => decide (i ≤ l.id)) (fun x hx => by
          simp only [decide_eq_true_eq] at hx ⊢; omega) t
      have h1 : ¬ (i + 1 ≤ l.id) := by omega
      have h0 : i ≤ l.id := by omega
      simp [List.filter_cons, h1, h0]
      omega
    · have hrec := ih ⟨l, hlt, hid⟩
      by_cases h1 : i + 1 ≤ a.id
      · have h0 : i ≤ a.id := by omega
        simp [List.filter_cons, h1, h0]
        omega
      · by_cases h0 : i ≤ a.id
        · simp [List.filter_cons, h1, h0]
          omega
        · simp only [List.filter_cons, h1, h0, decide_eq_true_eq]
          simpa [h1, h0] using hrec

theorem new_id_go_spec (L : List Layer) :
    ∀ fuel i, (L.filter (fun l => decide (i ≤ l.id))).length < fuel →
      id_used L (new_id_go L fuel i) = false ∧ i ≤ new_id_go L fuel i := by
  intro fuel
  induction fuel with
  | zero => intro i h; omega
  | succ f ih =>
    intro i h
    by_cases hu : id_used L i = true
    · have hex : ∃ l ∈ L, l.id = i := by
        simpa [id_used, List.any_eq_true] using hu
      have hlt := length_filter_lt_of_mem hex
      have hrec := ih (i + 1) (by omega)
      constructor
      · simpa [new_id_go, hu] using hrec.1
      · have := hrec.2
        simp only [new_id_go, hu, if_true]
        omega
    · constructor
      · simp only [new_id_go, hu, if_false, Bool.false_eq_true]
      · simp [new_id_go, hu]

theorem img_get_new_id_spec (L : List Layer) :
    img_get_new_id_l L ∉ L.map Layer.id ∧ 0 < img_get_new_id_l L := by
  have hlen : (L.filter (fun l => decide (1 ≤ l.id))).length < L.length + 1 :=
    lt_of_le_of_lt (List.length_filter_le _ _) (by omega)
  have h := new_id_go_spec L (L.length + 1) 1 hlen
  rw [img_get_new_id_l]
  constructor
  · intro hmem
    obtain ⟨l, hl, hid⟩ := List.mem_map.mp hmem
    have hused : id_used L (new_id_go L (L.length + 1) 1) = true := by
      simp only [id_used, List.any_eq_true]
      exact ⟨l, hl, by simp [hid]⟩
    rw [h.1] at hused
    exact Bool.false_ne_true hused
  · omega

/-- C1: pushing a snapshot, mutating the live document arbitrarily, and
undoing restores a live document observationally equal (same layer ids,
names, content keys and list order, likewise cameras and materials) to the
original — in fact equal on the nose. -/
theorem c1_push_mutate_undo_restores (s : HImage) (m : Image → Image) :
    (image_undo (mutateLive m (image_history_push s))).img = s.img ∧
    obsEq (image_undo (mutateLive m (image_history_push s))).img s.img := by
  have h : (image_undo (mutateLive m (image_history_push s))).img = s.img := by
    simp [image_undo, mutateLive, image_history_push, image_snap]
  refine ⟨h, ?_⟩
  rw [h]
  exact ⟨rfl, rfl, rfl⟩

/-- C2: when the current node has a predecessor, `image_redo` after
`image_undo` restores exactly the state (live content, and in fact the
whole chain) that existed before the undo. -/
theorem c2_undo_then_redo (s : HImage) (h : s.before ≠ []) :
    image_redo (image_undo s) = s := by
  obtain ⟨b, p, hb⟩ : ∃ b p, s.before = b ++ [p] := by
    rcases List.eq_nil_or_concat s.before with h' | ⟨b, p, h'⟩
    · exact absurd h' h
    · exact ⟨b, p, by simpa using h'⟩
  cases s with
  | mk before img after =>
    simp only at hb
    subst hb
    simp [image_undo, image_redo]

/-- C2 witness: a concrete two-node history round-trips. -/
theorem c2_undo_then_redo_witness :
    (⟨[testImg], testImg2, []⟩ : HImage).before ≠ [] ∧
    image_redo (image_undo ⟨[testImg], testImg2, []⟩) = ⟨[testImg], testImg2, []⟩ :=
  ⟨by decide, c2_undo_then_redo ⟨[testImg], testImg2, []⟩ (by decide)⟩

/-- C3: `image_history_push` discards every node after the current
position, so immediately afterwards the current node has no successor and
`image_redo` is a no-op — and remains one after any further mutation of the
live document (until an undo re-populates the redo side). -/
theorem c3_push_discards_redo (s : HImage) (m : Image → Image) :
    (image_history_push s).after = [] ∧
    image_redo (image_history_push s) = image_history_push s ∧
    image_redo (mutateLive m (image_history_push s)) = mutateLive m (image_history_push s) :=
  ⟨rfl, rfl, rfl⟩

/-- C6: `image_new` yields exactly one layer (auto-named `Layer.1`, with a
unique positive id), one camera, one material, and a `saved_key` equal to
the freshly computed document key, so a new document is not dirty. -/
theorem c6_image_new_clean :
    image_new.layers.length = 1 ∧
    (∀ l ∈ image_new.layers, l.name = "Layer.1" ∧ 0 < l.id) ∧
    (image_new.layers.map Layer.id).Nodup ∧
    image_new.cameras.length = 1 ∧
    image_new.materials.length = 1 ∧
    image_new.savedKey = image_get_key image_new := by
  refine ⟨by decide, by decide, by decide, by decide, by decide, ?_⟩
  rfl

/-- C10: `image_add_layer` with a caller-supplied layer overrides the
supplied state: the appended layer is unconditionally visible, carries a
freshly allocated id (positive, unused by every existing layer) in place of
the supplied one, and the document's active material in place of the
supplied reference; it is appended at the tail and becomes active. -/
theorem c10_add_layer_overrides (img : Image) (l : Layer) :
    ∃ l', (image_add_layer img (some l)).layers = img.layers ++ [l'] ∧
      l'.visible = true ∧
      l'.id ∉ img.layers.map Layer.id ∧ 0 < l'.id ∧
      l'.material = img.activeMaterial ∧
      l'.name = l.name ∧ l'.mesh = l.mesh ∧
      (image_add_layer img (some l)).activeLayer = some l'.id := by
  have hspec := img_get_new_id_spec img.layers
  exact ⟨{ l with visible := true, id := img_get_new_id_l img.layers, material := img.activeMaterial },
    rfl, rfl, hspec.1, hspec.2, rfl, rfl, rfl, rfl⟩

/-- C9 counterexample: on a document whose sole (active) layer has the
`base_id = 0` sentinel, `image_select_parent_layer` is not a no-op — it
clears the active-layer reference. -/
theorem c9_select_parent_counterexample :
    (∀ l ∈ parentTestImg.layers, l.base_id = 0) ∧
    image_select_parent_layer parentTestImg (some 1) ≠ parentTestImg := by
  decide

/-- C9 amended: `image_select_parent_layer` assigns to the active-layer
reference the result of resolving the target's `base_id`: the layer whose
id equals it when one exists, and null when `base_id` is 0 or (after the
failed assertion, under NDEBUG) when no layer carries that id — rather
than leaving the document unchanged in those cases.  Nothing but the
active-layer reference changes. -/
theorem c9_select_parent_amended (img : Image) (r : Nat) (layer : Layer)
    (hfind : img.layers.find? (fun l => l.id == r) = some layer) :
    image_select_parent_layer img (some r)
      = { img with activeLayer := (img_get_layer_l img.layers layer.base_id).map Layer.id } ∧
    (layer.base_id = 0 → (image_select_parent_layer img (some r)).activeLayer = none) ∧
    (∀ p, img_get_layer_l img.layers layer.base_id = some p →
      (image_select_parent_layer img (some r)).activeLayer = some p.id ∧
        p.id = layer.base_id) := by
  have h1 : image_select_parent_layer img (some r)
      = { img with activeLayer := (img_get_layer_l img.layers layer.base_id).map Layer.id } := by
    simp [image_select_parent_layer, optOr, hfind]
  refine ⟨h1, ?_, ?_⟩
  · intro h0
    rw [h1]
    simp [img_get_layer_l, h0]
  · intro p hp
    refine ⟨by rw [h1]; simp [hp], ?_⟩
    unfold img_get_layer_l at hp
    by_cases hb : layer.base_id = 0
    · simp [hb] at hp
    · rw [if_neg hb] at hp
      simpa using List.find?_some hp

/-- C9 amended witness: selecting the parent of layer 1 (a clone of layer
2) makes layer 2 active. -/
theorem c9_select_parent_amended_witness :
    parentTestImg2.layers.find? (fun l => l.id == 1)
        = some { id := 1, name := "L1", visible := true, base_id := 2 } ∧
    (image_select_parent_layer parentTestImg2 (some 1)).activeLayer = some 2 := by
  have h := c9_select_parent_amended parentTestImg2 1
    { id := 1, name := "L1", visible := true, base_id := 2 } (by decide)
  have h2 := (h.2.2 { id := 2, name := "L2", visible := true } (by decide)).1
  exact ⟨by decide, by simpa using h2⟩

/-- C8: merging visible layers in a document whose list is three visible
layers followed by an invisible one leaves exactly two layers: the third
visible layer — uncloned, its mesh now L1 composited over L2 composited
over L3 with the OVER blend — at its former position, followed by the
untouched invisible layer.  The merged layer becomes active and is the
only visible layer left. -/
theorem c8_merge_visible_layers_spec (img : Image) (L1 L2 L3 L4 : Layer)
    (hl : img.layers = [L1, L2, L3, L4])
    (h1 : L1.visible = true) (h2 : L2.visible = true)
    (h3 : L3.visible = true) (h4 : L4.visible = false) :
    (image_merge_visible_layers img).layers
      = [{ unclone_layer L3 with
            mesh := Mesh.merge L3.mesh (Mesh.merge L2.mesh L1.mesh) }, L4] ∧
    (image_merge_visible_layers img).activeLayer = some L3.id ∧
    ((image_merge_visible_layers img).layers.filter (fun l => l.visible)).length = 1 := by
  have hres : image_merge_visible_layers img =
      { img with
        layers := [{ unclone_layer L3 with
          mesh := Mesh.merge L3.mesh (Mesh.merge L2.mesh L1.mesh) }, L4],
        activeLayer := some L3.id } := by
    simp [image_merge_visible_layers, merge_vis_go, hl, h1, h2, h3, h4, unclone_layer]
  rw [hres]
  refine ⟨rfl, rfl, ?_⟩
  simp [List.filter, unclone_layer, h3, h4]

/-- C8 witness: the concrete four-layer fixture merges to the expected
two-layer list with layer 3 active. -/
theorem c8_merge_visible_layers_witness :
    (image_merge_visible_layers mergeTestImg).activeLayer = some 3 ∧
    ((image_merge_visible_layers mergeTestImg).layers.filter (fun l => l.visible)).length = 1 := by
  have h := c8_merge_visible_layers_spec mergeTestImg
    { id := 1, name := "V1", visible := true, mesh := .atom 1 }
    { id := 2, name := "V2", visible := true, mesh := .atom 2 }
    { id := 3, name := "V3", visible := true, mesh := .atom 3, base_id := 1 }
    { id := 4, name := "V4", visible := false, mesh := .atom 4 }
    rfl rfl rfl rfl rfl
  exact ⟨h.2.1, h.2.2⟩
/-- C5: deleting layer `r` removes it from the list (the remaining ids are
the original ids with `r` erased, in order), resets `base_id` to 0 on every
remaining layer cloned from it (afterwards no layer references it), never
leaves the list empty — when the last layer is deleted a visible
placeholder named "unnamed" with a valid positive (trivially unique) id is
synthesized — keeps every other layer with its other content intact, and
leaves the active layer set and pointing at a member. -/
theorem c5_delete_layer_spec (img : Image) (r : Nat)
    (hpos : ∀ l ∈ img.layers, 0 < l.id)
    (hact : ref_ok_weak Layer.id img.layers img.activeLayer)
    (hmem : r ∈ img.layers.map Layer.id) :
    (image_delete_layer img (some r)).layers ≠ [] ∧
    (1 < img.layers.length →
      (image_delete_layer img (some r)).layers.map Layer.id
        = (img.layers.map Layer.id).erase r) ∧
    (img.layers.length = 1 → ∃ l, (image_delete_layer img (some r)).layers = [l] ∧
      0 < l.id ∧ l.name = "unnamed" ∧ l.visible = true) ∧
    (∀ l ∈ (image_delete_layer img (some r)).layers, l.base_id ≠ r) ∧
    (∀ l ∈ img.layers, l.id ≠ r →
      ∃ l' ∈ (image_delete_layer img (some r)).layers, l'.id = l.id ∧ l'.name = l.name ∧
        l'.mesh = l.mesh ∧ l'.base_id = (if l.base_id = r then 0 else l.base_id)) ∧
    (∃ a, (image_delete_layer img (some r)).activeLayer = some a ∧
      ∃ l ∈ (image_delete_layer img (some r)).layers, l.id = a) := by
  obtain ⟨lr, hlr, hlrid⟩ := List.mem_map.mp hmem
  have hr0 : 0 < r := hlrid ▸ hpos lr hlr
  have hlrp : (fun l : Layer => l.id == r) lr = true := by simp [hlrid]
  set L1 := img.layers.eraseP (fun l => l.id == r) with hL1
  set RS := fun o : Layer => if o.base_id = r then { o with base_id := 0 } else o with hRS
  set L2 := L1.map RS with hL2
  set PH : Layer := { layer_new "unnamed" with visible := true, id := img_get_new_id_l ([] : List Layer) } with hPH
  have key : image_delete_layer img (some r) =
      { img with
        layers := if L2 = [] then [PH] else L2,
        activeLayer :=
          match (if img.activeLayer = some r then none else img.activeLayer) with
          | some a => some a
          | none => (if L2 = [] then [PH] else L2).getLast?.map Layer.id } := rfl
  have hlen1 : L1.length = img.layers.length - 1 :=
    List.length_eraseP_of_mem hlr hlrp
  have hmapid : L2.map Layer.id = L1.map Layer.id := by
    rw [hL2, List.map_map]
    apply List.map_congr_left
    intro o _
    by_cases hb : o.base_id = r <;> simp [hRS, hb]
  have hL1id : L1.map Layer.id = (img.layers.map Layer.id).erase r := by
    rw [List.erase_eq_eraseP', List.eraseP_map]
    rfl
  have hRSid : ∀ o : Layer, (RS o).id = o.id := by
    intro o
    by_cases hb : o.base_id = r <;> simp [hRS, hb]
  have hne2 : (if L2 = [] then [PH] else L2) ≠ [] := by
    by_cases hemp : L2 = [] <;> simp [hemp]
  have hlayers : (image_delete_layer img (some r)).layers
      = (if L2 = [] then [PH] else L2) := by rw [key]
  have hne : (image_delete_layer img (some r)).layers ≠ [] := by
    rw [hlayers]; exact hne2
  refine ⟨hne, ?_, ?_, ?_, ?_, ?_⟩
  · intro hgt
    have hL2ne : L2 ≠ [] := by
      intro h
      have : L2.length = 0 := by simp [h]
      rw [hL2, List.length_map, hlen1] at this
      omega
    rw [hlayers]
    simp only [hL2ne, if_false]
    rw [hmapid, hL1id]
  · intro hone
    have hL2nil : L2 = [] := by
      have : L2.length = 0 := by rw [hL2, List.length_map, hlen1, hone]
      exact List.length_eq_zero.mp this
    refine ⟨PH, ?_, ?_, rfl, rfl⟩
    · rw [hlayers]; simp [hL2nil]
    · rw [hPH]; decide
  · intro l hl
    rw [hlayers] at hl
    by_cases hemp : L2 = []
    · rw [if_pos hemp] at hl
      have hlph : l = PH := by simpa using hl
      rw [hlph, hPH]
      simp [layer_new]
      omega
    · rw [if_neg hemp] at hl
      obtain ⟨o, _, rfl⟩ := List.mem_map.mp hl
      by_cases hb : o.base_id = r
      · have hro : RS o = { o with base_id := 0 } := by rw [hRS]; simp [hb]
        rw [hro]
        simp only
        omega
      · have hro : RS o = o := by rw [hRS]; simp [hb]
        rw [hro]
        exact hb
  · intro l hl hlne
    have hl1 : l ∈ L1 := by
      rw [hL1]
      exact (List.mem_eraseP_of_neg (by simp [hlne])).mpr hl
    have hl2 : RS l ∈ L2 := by
      rw [hL2]; exact List.mem_map_of_mem RS hl1
    have hL2ne : L2 ≠ [] := List.ne_nil_of_mem hl2
    refine ⟨RS l, ?_, hRSid l, ?_, ?_, ?_⟩
    · rw [hlayers]; simpa [hL2ne] using hl2
    · by_cases hb : l.base_id = r <;> simp [hRS, hb]
    · by_cases hb : l.base_id = r <;> simp [hRS, hb]
    · by_cases hb : l.base_id = r <;> simp [hRS, hb]
  · rcases hact1 : (if img.activeLayer = some r then none else img.activeLayer) with _ | a
    · have hKA : (image_delete_layer img (some r)).activeLayer
          = (if L2 = [] then [PH] else L2).getLast?.map Layer.id := by
        rw [key]
        simp only [hact1]
      rcases hg : (if L2 = [] then [PH] else L2).getLast? with _ | last
      · exact absurd (List.getLast?_eq_none_iff.mp hg) hne2
      · refine ⟨last.id, by rw [hKA, hg]; rfl, last, ?_, rfl⟩
        rw [hlayers]
        exact List.mem_of_getLast?_eq_some hg
    · have hKA : (image_delete_layer img (some r)).activeLayer = some a := by
        rw [key]
        simp only [hact1]
      by_cases hcr : img.activeLayer = some r
      · rw [if_pos hcr] at hact1
        cases hact1
      · rw [if_neg hcr] at hact1
        have har : a ≠ r := by
          intro h
          rw [h] at hact1
          exact hcr hact1
        obtain ⟨la, hla, hlaid⟩ : ∃ x ∈ img.layers, x.id = a := by
          have h2 := hact
          rw [hact1] at h2
          exact h2
        have hl1 : la ∈ L1 := by
          rw [hL1]
          refine (List.mem_eraseP_of_neg ?_).mpr hla
          simp [hlaid, har]
        have hl2 : RS la ∈ L2 := by
          rw [hL2]; exact List.mem_map_of_mem RS hl1
        have hL2ne : L2 ≠ [] := List.ne_nil_of_mem hl2
        refine ⟨a, hKA, RS la, ?_, ?_⟩
        · rw [hlayers]; simpa [hL2ne] using hl2
        · rw [hRSid la, hlaid]

/-- C5 witness: deleting the active layer 2 from the three-layer fixture
(layers 1 and 3 are its clones). -/
theorem c5_delete_layer_witness :
    (image_delete_layer deleteTestImg (some 2)).layers ≠ [] ∧
    (∀ l ∈ (image_delete_layer deleteTestImg (some 2)).layers, l.base_id ≠ 2) ∧
    (∃ a, (image_delete_layer deleteTestImg (some 2)).activeLayer = some a ∧
      ∃ l ∈ (image_delete_layer deleteTestImg (some 2)).layers, l.id = a) := by
  have h := c5_delete_layer_spec deleteTestImg 2 (by decide) (by decide) (by decide)
  exact ⟨h.1, h.2.2.2.1, h.2.2.2.2.2⟩

theorem swapAdj_perm {α : Type} : ∀ (l : List α) (i : Nat), (swapAdj l i).Perm l := by
  intro l
  induction l with
  | nil => intro i; cases i <;> simp [swapAdj]
  | cons a t ih =>
    intro i
    cases i with
    | zero =>
      cases t with
      | nil => simp [swapAdj]
      | cons b u => simpa [swapAdj] using List.Perm.swap a b u
    | succ n =>
      cases t with
      | nil => simp [swapAdj]
      | cons b u =>
        have := ih n
        simpa [swapAdj] using List.Perm.cons a (ih n)

theorem foldl_max_init_le {α : Type} (f : α → Nat) :
    ∀ (l : List α) (a : Nat), a ≤ l.foldl (fun acc x => max acc (f x)) a := by
  intro l
  induction l with
  | nil => intro a; simp
  | cons x t ih =>
    intro a
    calc a ≤ max a (f x) := Nat.le_max_left _ _
    _ ≤ t.foldl (fun acc x => max acc (f x)) (max a (f x)) := ih _

theorem mem_le_foldl_max {α : Type} (f : α → Nat) :
    ∀ (l : List α) (a : Nat) (x : α), x ∈ l → f x ≤ l.foldl (fun acc x => max acc (f x)) a := by
  intro l
  induction l with
  | nil => intro a x hx; simp at hx
  | cons y t ih =>
    intro a x hx
    rcases List.mem_cons.mp hx with rfl | hxt
    · calc f x ≤ max a (f x) := Nat.le_max_right _ _
      _ ≤ t.foldl (fun acc z => max acc (f z)) (max a (f x)) := foldl_max_init_le f t _
    · exact ih _ x hxt

theorem fresh_cam_ref_spec (cams : List Camera) :
    ∀ c ∈ cams, c.ref ≠ fresh_cam_ref cams := by
  intro c hc
  have := mem_le_foldl_max Camera.ref cams 0 c hc
  unfold fresh_cam_ref
  omega

theorem fresh_mat_ref_spec (mats : List Material) :
    ∀ m ∈ mats, m.ref ≠ fresh_mat_ref mats := by
  intro m hm
  have := mem_le_foldl_max Material.ref mats 0 m hm
  unfold fresh_mat_ref
  omega

theorem image_delete_layer_none (img : Image) (a : Nat) (h : img.activeLayer = some a) :
    image_delete_layer img none = image_delete_layer img (some a) := by
  unfold image_delete_layer
  simp [optOr, h]

theorem image_move_layer_none (img : Image) (a : Nat) (d : Int) (h : img.activeLayer = some a) :
    image_move_layer img none d = image_move_layer img (some a) d := by
  unfold image_move_layer
  simp [optOr, h]

theorem image_duplicate_layer_none (img : Image) (a : Nat) (h : img.activeLayer = some a) :
    image_duplicate_layer img none = image_duplicate_layer img (some a) := by
  unfold image_duplicate_layer
  simp [optOr, h]

theorem image_clone_layer_none (img : Image) (a : Nat) (h : img.activeLayer = some a) :
    image_clone_layer img none = image_clone_layer img (some a) := by
  unfold image_clone_layer
  simp [optOr, h]

theorem image_delete_camera_none (img : Image) (a : Nat) (h : img.activeCamera = some a) :
    image_delete_camera img none = image_delete_camera img (some a) := by
  unfold image_delete_camera
  simp [optOr, h]

theorem image_move_camera_none (img : Image) (a : Nat) (d : Int) (h : img.activeCamera = some a) :
    image_move_camera img none d = image_move_camera img (some a) d := by
  unfold image_move_camera
  simp [optOr, h]

theorem image_delete_material_none (img : Image) (a : Nat) (h : img.activeMaterial = some a) :
    image_delete_material img none = image_delete_material img (some a) := by
  unfold image_delete_material
  simp [optOr, h]

theorem append_fresh_layer_preserves (img : Image) (l' : Layer)
    (hwf : wf_image img) (hinv : active_inv_amended img)
    (hid : l'.id = img_get_new_id_l img.layers) :
    wf_image { img with layers := img.layers ++ [l'], activeLayer := some l'.id } ∧
    active_inv_amended { img with layers := img.layers ++ [l'], activeLayer := some l'.id } := by
  obtain ⟨hpos, hnl, hnc, hnm⟩ := hwf
  obtain ⟨hne, hal, hac, ham⟩ := hinv
  have hfresh := img_get_new_id_spec img.layers
  constructor
  · refine ⟨?_, ?_, hnc, hnm⟩
    · intro l hl
      rcases List.mem_append.mp hl with h | h
      · exact hpos l h
      · have heq : l = l' := by simpa using h
        rw [heq, hid]
        exact hfresh.2
    · rw [List.map_append]
      rw [List.nodup_append]
      refine ⟨hnl, by simp, ?_⟩
      intro x hx hx2
      simp only [List.map_cons, List.map_nil, List.mem_singleton] at hx2
      rw [hx2, hid] at hx
      exact hfresh.1 hx
  · refine ⟨by simp, ⟨l', ?_, rfl⟩, hac, ham⟩
    simp

theorem append_fresh_camera_preserves (img : Image) (c : Camera)
    (hwf : wf_image img) (hinv : active_inv_amended img)
    (hfresh : ∀ x ∈ img.cameras, x.ref ≠ c.ref) :
    wf_image { img with cameras := img.cameras ++ [c], activeCamera := some c.ref } ∧
    active_inv_amended { img with cameras := img.cameras ++ [c], activeCamera := some c.ref } := by
  obtain ⟨hpos, hnl, hnc, hnm⟩ := hwf
  obtain ⟨hne, hal, hac, ham⟩ := hinv
  constructor
  · refine ⟨hpos, hnl, ?_, hnm⟩
    rw [List.map_append, List.nodup_append]
    refine ⟨hnc, by simp, ?_⟩
    intro x hx hx2
    simp only [List.map_cons, List.map_nil, List.mem_singleton] at hx2
    obtain ⟨y, hy, hyx⟩ := List.mem_map.mp hx
    exact hfresh y hy (by rw [hyx, hx2])
  · refine ⟨hne, hal, ⟨c, ?_, rfl⟩, ham⟩
    simp

theorem append_fresh_material_preserves (img : Image) (m : Material)
    (hwf : wf_image img) (hinv : active_inv_amended img)
    (hfresh : ∀ x ∈ img.materials, x.ref ≠ m.ref) :
    wf_image { img with materials := img.materials ++ [m], activeMaterial := some m.ref } ∧
    active_inv_amended { img with materials := img.materials ++ [m], activeMaterial := some m.ref } := by
  obtain ⟨hpos, hnl, hnc, hnm⟩ := hwf
  obtain ⟨hne, hal, hac, ham⟩ := hinv
  constructor
  · refine ⟨hpos, hnl, hnc, ?_⟩
    rw [List.map_append, List.nodup_append]
    refine ⟨hnm, by simp, ?_⟩
    intro x hx hx2
    simp only [List.map_cons, List.map_nil, List.mem_singleton] at hx2
    obtain ⟨y, hy, hyx⟩ := List.mem_map.mp hx
    exact hfresh y hy (by rw [hyx, hx2])
  · refine ⟨hne, hal, hac, ⟨m, ?_, rfl⟩⟩
    simp

theorem add_layer_shape (img : Image) (a : Option Layer) :
    ∃ l', image_add_layer img a
        = { img with layers := img.layers ++ [l'], activeLayer := some l'.id } ∧
      l'.id = img_get_new_id_l img.layers := by
  cases a with
  | none => exact ⟨_, rfl, rfl⟩
  | some l => exact ⟨_, rfl, rfl⟩

theorem dup_layer_shape (img : Image) (r : Nat) :
    image_duplicate_layer img (some r) = img ∨
    ∃ l', image_duplicate_layer img (some r)
        = { img with layers := img.layers ++ [l'], activeLayer := some l'.id } ∧
      l'.id = img_get_new_id_l img.layers := by
  unfold image_duplicate_layer
  rcases hf : img.layers.find? (fun l => l.id == r) with _ | other
  · left
    simp [optOr, hf]
  · right
    refine ⟨{ layer_copy other with visible := true, id := img_get_new_id_l img.layers }, ?_, rfl⟩
    simp [optOr, hf]

theorem clone_layer_shape (img : Image) (r : Nat) :
    image_clone_layer img (some r) = img ∨
    ∃ l', image_clone_layer img (some r)
        = { img with layers := img.layers ++ [l'], activeLayer := some l'.id } ∧
      l'.id = img_get_new_id_l img.layers := by
  unfold image_clone_layer
  rcases hf : img.layers.find? (fun l => l.id == r) with _ | other
  · left
    simp [optOr, hf]
  · right
    refine ⟨{ layer_clone other with visible := true, id := img_get_new_id_l img.layers }, ?_, rfl⟩
    simp [optOr, hf]

theorem move_layer_shape (img : Image) (r : Nat) (d : Int) :
    image_move_layer img (some r) d = img ∨
    ∃ i, image_move_layer img (some r) d = { img with layers := swapAdj img.layers i } := by
  unfold image_move_layer
  rcases hf : img.layers.findIdx? (fun l => l.id == r) with _ | i
  · left
    simp [optOr, hf]
  · by_cases hd : d = -1
    · by_cases he : i + 1 = img.layers.length
      · left
        simp [optOr, hf, hd, he]
      · right
        exact ⟨i, by simp [optOr, hf, hd, he]⟩
    · by_cases he : i = 0
      · left
        simp [optOr, hf, hd, he]
      · right
        exact ⟨i - 1, by simp [optOr, hf, hd, he]⟩

theorem move_camera_shape (img : Image) (r : Nat) (d : Int) :
    image_move_camera img (some r) d = img ∨
    ∃ i, image_move_camera img (some r) d = { img with cameras := swapAdj img.cameras i } := by
  unfold image_move_camera
  rcases hf : img.cameras.findIdx? (fun c => c.ref == r) with _ | i
  · left
    simp [optOr, hf]
  · by_cases hd : d = -1
    · by_cases he : i + 1 = img.cameras.length
      · left
        simp [optOr, hf, hd, he]
      · right
        exact ⟨i, by simp [optOr, hf, hd, he]⟩
    · by_cases he : i = 0
      · left
        simp [optOr, hf, hd, he]
      · right
        exact ⟨i - 1, by simp [optOr, hf, hd, he]⟩

theorem add_camera_shape (img : Image) (a : Option Camera)
    (hok : fresh_opt Camera.ref img.cameras a) :
    ∃ c, image_add_camera img a
        = { img with cameras := img.cameras ++ [c], activeCamera := some c.ref } ∧
      ∀ x ∈ img.cameras, x.ref ≠ c.ref := by
  cases a with
  | none =>
    refine ⟨_, rfl, ?_⟩
    intro x hx
    simpa using fresh_cam_ref_spec img.cameras x hx
  | some c => exact ⟨c, rfl, fun x hx => hok x hx⟩

theorem add_material_shape (img : Image) (a : Option Material)
    (hok : fresh_opt Material.ref img.materials a) :
    ∃ m, image_add_material img a
        = { img with materials := img.materials ++ [m], activeMaterial := some m.ref } ∧
      ∀ x ∈ img.materials, x.ref ≠ m.ref := by
  cases a with
  | none =>
    refine ⟨_, rfl, ?_⟩
    intro x hx
    simpa using fresh_mat_ref_spec img.materials x hx
  | some m => exact ⟨m, rfl, fun x hx => hok x hx⟩

theorem perm_layers_preserves (img : Image) (L' : List Layer) (hperm : L'.Perm img.layers)
    (hwf : wf_image img) (hinv : active_inv_amended img) :
    wf_image { img with layers := L' } ∧ active_inv_amended { img with layers := L' } := by
  obtain ⟨hpos, hnl, hnc, hnm⟩ := hwf
  obtain ⟨hlne, hal, hac, ham⟩ := hinv
  constructor
  · refine ⟨fun l hl => hpos l (hperm.subset hl), ?_, hnc, hnm⟩
    exact ((hperm.map Layer.id).nodup_iff).mpr hnl
  · refine ⟨?_, ?_, hac, ham⟩
    · intro h
      apply hlne
      have h' : L' = [] := h
      have hlen : img.layers.length = 0 := by
        rw [← hperm.length_eq, h']
        rfl
      exact List.length_eq_zero.mp hlen
    · rcases hA : img.activeLayer with _ | a
      · exfalso
        apply hlne
        have := hal
        rw [hA] at this
        exact this
      · have := hal
        rw [hA] at this
        obtain ⟨x, hx, hxa⟩ := this
        exact ⟨x, hperm.mem_iff.mpr hx, hxa⟩

theorem perm_cameras_preserves (img : Image) (C' : List Camera) (hperm : C'.Perm img.cameras)
    (hwf : wf_image img) (hinv : active_inv_amended img) :
    wf_image { img with cameras := C' } ∧ active_inv_amended { img with cameras := C' } := by
  obtain ⟨hpos, hnl, hnc, hnm⟩ := hwf
  obtain ⟨hlne, hal, hac, ham⟩ := hinv
  constructor
  · exact ⟨hpos, hnl, ((hperm.map Camera.ref).nodup_iff).mpr hnc, hnm⟩
  · refine ⟨hlne, hal, ?_, ham⟩
    rcases hA : img.activeCamera with _ | a
    · have := hac
      rw [hA] at this
      rw [this] at hperm
      have hlen : C'.length = 0 := by rw [hperm.length_eq]; rfl
      have : C' = [] := List.length_eq_zero.mp hlen
      rw [this]
      rfl
    · have := hac
      rw [hA] at this
      obtain ⟨x, hx, hxa⟩ := this
      exact ⟨x, hperm.mem_iff.mpr hx, hxa⟩

theorem delete_layer_preserves (img : Image) (r : Nat)
    (hwf : wf_image img) (hinv : active_inv_amended img)
    (hmem : r ∈ img.layers.map Layer.id) :
    wf_image (image_delete_layer img (some r)) ∧
    active_inv_amended (image_delete_layer img (some r)) := by
  obtain ⟨hpos, hnl, hnc, hnm⟩ := hwf
  obtain ⟨hlne, hal, hac, ham⟩ := hinv
  set L1 := img.layers.eraseP (fun l => l.id == r) with hL1
  set RS := fun o : Layer => if o.base_id = r then { o with base_id := 0 } else o with hRS
  set L2 := L1.map RS with hL2
  set PH : Layer := { layer_new "unnamed" with visible := true, id := img_get_new_id_l ([] : List Layer) } with hPH
  have key : image_delete_layer img (some r) =
      { img with
        layers := if L2 = [] then [PH] else L2,
        activeLayer :=
          match (if img.activeLayer = some r then none else img.activeLayer) with
          | some a => some a
          | none => (if L2 = [] then [PH] else L2).getLast?.map Layer.id } := rfl
  have hRSid : ∀ o : Layer, (RS o).id = o.id := by
    intro o
    by_cases hb : o.base_id = r <;> simp [hRS, hb]
  have hmapid : L2.map Layer.id = L1.map Layer.id := by
    rw [hL2, List.map_map]
    apply List.map_congr_left
    intro o _
    exact hRSid o
  have hL1id : L1.map Layer.id = (img.layers.map Layer.id).eraseP (fun x => x == r) := by
    rw [List.eraseP_map]
    rfl
  have hL2nodup : (L2.map Layer.id).Nodup := by
    rw [hmapid, hL1id]
    exact hnl.sublist (List.eraseP_sublist _)
  have hL2pos : ∀ l ∈ L2, 0 < l.id := by
    intro l hl
    obtain ⟨o, ho, rfl⟩ := List.mem_map.mp hl
    rw [hRSid]
    exact hpos o (List.mem_of_mem_eraseP ho)
  have hsurv : ∀ a, img.activeLayer = some a → a ≠ r →
      ∃ x ∈ L2, x.id = a := by
    intro a hA har
    have := hal
    rw [hA] at this
    obtain ⟨la, hla, hlaid⟩ := this
    have hl1 : la ∈ L1 := by
      rw [hL1]
      refine (List.mem_eraseP_of_neg ?_).mpr hla
      simp [hlaid, har]
    exact ⟨RS la, List.mem_map_of_mem RS hl1, by rw [hRSid, hlaid]⟩
  rw [key]
  by_cases hemp : L2 = []
  · constructor
    · refine ⟨?_, ?_, hnc, hnm⟩
      · intro l hl
        simp only [hemp, if_true, List.mem_singleton] at hl
        rw [hl, hPH]
        decide
      · simp [hemp]
    · refine ⟨by simp [hemp], ?_, hac, ham⟩
      rcases hA : img.activeLayer with _ | a
      · exfalso
        apply hlne
        have := hal
        rw [hA] at this
        exact this
      · by_cases har : a = r
        · subst har
          have hred : (if (some a : Option Nat) = some a then none else some a) = none := by simp
          simp only [hA, hred, hemp, if_true]
          exact ⟨PH, by simp, by simp⟩
        · exfalso
          obtain ⟨x, hx, _⟩ := hsurv a hA har
          rw [hemp] at hx
          simp at hx
  · constructor
    · refine ⟨?_, ?_, hnc, hnm⟩
      · intro l hl
        rw [if_neg hemp] at hl
        exact hL2pos l hl
      · simp only [hemp, if_false]
        exact hL2nodup
    · refine ⟨by simp [hemp], ?_, hac, ham⟩
      rcases hA : img.activeLayer with _ | a
      · exfalso
        apply hlne
        have := hal
        rw [hA] at this
        exact this
      · by_cases har : a = r
        · subst har
          have hred : (if (some a : Option Nat) = some a then none else some a) = none := by simp
          simp only [hA, hred, hemp, if_false]
          rcases hg : L2.getLast? with _ | last
          · exact absurd (List.getLast?_eq_none_iff.mp hg) hemp
          · exact ⟨last, List.mem_of_getLast?_eq_some hg, by simp [hg]⟩
        · have hred : (if (some a : Option Nat) = some r then none else some a) = some a := by
            simp [har]
          simp only [hA, hred, hemp, if_false]
          exact hsurv a hA har

theorem delete_camera_preserves (img : Image) (r : Nat)
    (hwf : wf_image img) (hinv : active_inv_amended img) :
    wf_image (image_delete_camera img (some r)) ∧
    active_inv_amended (image_delete_camera img (some r)) := by
  obtain ⟨hpos, hnl, hnc, hnm⟩ := hwf
  obtain ⟨hlne, hal, hac, ham⟩ := hinv
  set C1 := img.cameras.eraseP (fun c => c.ref == r) with hC1
  have key : image_delete_camera img (some r) =
      { img with
        cameras := C1,
        activeCamera := if img.activeCamera = some r
          then C1.head?.map Camera.ref else img.activeCamera } := rfl
  have hC1nodup : (C1.map Camera.ref).Nodup := by
    rw [hC1]
    have : (img.cameras.eraseP (fun c => c.ref == r)).map Camera.ref
        = (img.cameras.map Camera.ref).eraseP (fun x => x == r) := by
      rw [List.eraseP_map]
      rfl
    rw [this]
    exact hnc.sublist (List.eraseP_sublist _)
  rw [key]
  constructor
  · exact ⟨hpos, hnl, hC1nodup, hnm⟩
  · refine ⟨hlne, hal, ?_, ham⟩
    rcases hA : img.activeCamera with _ | a
    · have hemp : img.cameras = [] := by
        have := hac
        rw [hA] at this
        exact this
      have hC1emp : C1 = [] := by rw [hC1, hemp]; rfl
      have hred : ((if (none : Option Nat) = some r then C1.head?.map Camera.ref else none) : Option Nat) = none := by
        simp
      simp only [hA, hred]
      exact hC1emp
    · by_cases har : a = r
      · subst har
        have hred : (if (some a : Option Nat) = some a then C1.head?.map Camera.ref else some a) = C1.head?.map Camera.ref := by simp
        simp only [hA, hred]
        rcases hh : C1.head? with _ | c0
        · simp only [hh, Option.map_none']
          exact List.head?_eq_none_iff.mp hh
        · simp only [hh, Option.map_some']
          exact ⟨c0, List.mem_of_mem_head? hh, rfl⟩
      · have hred : (if (some a : Option Nat) = some r then C1.head?.map Camera.ref else some a) = some a := by
          simp [har]
        simp only [hA, hred]
        have := hac
        rw [hA] at this
        obtain ⟨x, hx, hxa⟩ := this
        refine ⟨x, ?_, hxa⟩
        rw [hC1]
        refine (List.mem_eraseP_of_neg ?_).mpr hx
        simp [hxa, har]

theorem delete_material_preserves (img : Image) (r : Nat)
    (hwf : wf_image img) (hinv : active_inv_amended img) :
    wf_image (image_delete_material img (some r)) ∧
    active_inv_amended (image_delete_material img (some r)) := by
  obtain ⟨hpos, hnl, hnc, hnm⟩ := hwf
  obtain ⟨hlne, hal, hac, ham⟩ := hinv
  set M1 := img.materials.eraseP (fun m => m.ref == r) with hM1
  set CLR := fun l : Layer => if l.material = some r then { l with material := none } else l with hCLR
  set LC := img.layers.map CLR with hLC
  have key : image_delete_material img (some r) =
      { img with
        materials := M1,
        activeMaterial := if img.activeMaterial = some r then none else img.activeMaterial,
        layers := LC } := rfl
  have hCLRid : ∀ l : Layer, (CLR l).id = l.id := by
    intro l
    by_cases hb : l.material = some r <;> simp [hCLR, hb]
  have hLCid : LC.map Layer.id = img.layers.map Layer.id := by
    rw [hLC, List.map_map]
    apply List.map_congr_left
    intro o _
    exact hCLRid o
  have hM1nodup : (M1.map Material.ref).Nodup := by
    rw [hM1]
    have : (img.materials.eraseP (fun m => m.ref == r)).map Material.ref
        = (img.materials.map Material.ref).eraseP (fun x => x == r) := by
      rw [List.eraseP_map]
      rfl
    rw [this]
    exact hnm.sublist (List.eraseP_sublist _)
  rw [key]
  constructor
  · refine ⟨?_, ?_, hnc, hM1nodup⟩
    · intro l hl
      obtain ⟨o, ho, rfl⟩ := List.mem_map.mp hl
      rw [hCLRid]
      exact hpos o ho
    · rw [hLCid]
      exact hnl
  · refine ⟨?_, ?_, hac, ?_⟩
    · intro h
      apply hlne
      have h' : LC = [] := h
      rw [hLC] at h'
      exact List.map_eq_nil_iff.mp h'
    · rcases hA : img.activeLayer with _ | a
      · exfalso
        apply hlne
        have := hal
        rw [hA] at this
        exact this
      · have := hal
        rw [hA] at this
        obtain ⟨x, hx, hxa⟩ := this
        refine ⟨CLR x, ?_, by rw [hCLRid]; exact hxa⟩
        rw [hLC]
        exact List.mem_map_of_mem CLR hx
    · by_cases hcr : img.activeMaterial = some r
      · have hred : (if img.activeMaterial = some r then none else img.activeMaterial) = none := by
          simp [hcr]
        simp only [hred]
        exact trivial
      · have hred : (if img.activeMaterial = some r then none else img.activeMaterial) = img.activeMaterial := by
          simp [hcr]
        simp only [hred]
        rcases hA : img.activeMaterial with _ | a
        · exact trivial
        · have := ham
          rw [hA] at this
          obtain ⟨x, hx, hxa⟩ := this
          refine ⟨x, ?_, hxa⟩
          rw [hM1]
          refine (List.mem_eraseP_of_neg ?_).mpr hx
          have har : a ≠ r := by
            intro h
            rw [hA, h] at hcr
            exact hcr rfl
          simp [hxa, har]

/-- C4 counterexample: the invariant exactly as claimed fails for
`image_delete_material` — deleting the active material of a well-formed
two-material document leaves `active_material` null while one material
remains in the collection. -/
theorem c4_active_refs_counterexample :
    wf_image matTestImg ∧ active_inv matTestImg ∧
    opOk matTestImg (Op.deleteMaterial none) ∧
    ¬ active_inv (applyOp matTestImg (Op.deleteMaterial none)) := by
  decide

/-- C4 amended: every lifecycle operation, run under its C preconditions on
a well-formed document, preserves well-formedness and the amended
active-reference invariant: the layer list stays non-empty with the active
layer a member; the active camera names a member and is null only while no
camera exists; the active material names a member when set, but may be left
null by deleting the active material even while materials remain. -/
theorem c4_active_refs_amended (img : Image) (op : Op)
    (hwf : wf_image img) (hinv : active_inv_amended img) (hok : opOk img op) :
    wf_image (applyOp img op) ∧ active_inv_amended (applyOp img op) := by
  cases op with
  | addLayer a =>
    obtain ⟨l', hshape, hid⟩ := add_layer_shape img a
    show wf_image (image_add_layer img a) ∧ active_inv_amended (image_add_layer img a)
    rw [hshape]
    exact append_fresh_layer_preserves img l' hwf hinv hid
  | deleteLayer a =>
    show wf_image (image_delete_layer img a) ∧ active_inv_amended (image_delete_layer img a)
    rcases a with _ | r
    · rcases hA : img.activeLayer with _ | a0
      · exfalso
        apply hinv.1
        have := hinv.2.1
        rw [hA] at this
        exact this
      · have hm : a0 ∈ img.layers.map Layer.id := by
          have := hinv.2.1
          rw [hA] at this
          obtain ⟨x, hx, hxa⟩ := this
          exact List.mem_map.mpr ⟨x, hx, hxa⟩
        rw [image_delete_layer_none img a0 hA]
        exact delete_layer_preserves img a0 hwf hinv hm
    · have hm : r ∈ img.layers.map Layer.id := by
        obtain ⟨x, hx, hxa⟩ := hok
        exact List.mem_map.mpr ⟨x, hx, hxa⟩
      exact delete_layer_preserves img r hwf hinv hm
  | moveLayer a d =>
    show wf_image (image_move_layer img a d) ∧ active_inv_amended (image_move_layer img a d)
    rcases a with _ | r
    · rcases hA : img.activeLayer with _ | a0
      · exfalso
        apply hinv.1
        have := hinv.2.1
        rw [hA] at this
        exact this
      · rw [image_move_layer_none img a0 d hA]
        rcases move_layer_shape img a0 d with h | ⟨i, h⟩
        · rw [h]; exact ⟨hwf, hinv⟩
        · rw [h]; exact perm_layers_preserves img _ (swapAdj_perm _ _) hwf hinv
    · rcases move_layer_shape img r d with h | ⟨i, h⟩
      · rw [h]; exact ⟨hwf, hinv⟩
      · rw [h]; exact perm_layers_preserves img _ (swapAdj_perm _ _) hwf hinv
  | duplicateLayer a =>
    show wf_image (image_duplicate_layer img a) ∧ active_inv_amended (image_duplicate_layer img a)
    rcases a with _ | r
    · rcases hA : img.activeLayer with _ | a0
      · exfalso
        apply hinv.1
        have := hinv.2.1
        rw [hA] at this
        exact this
      · rw [image_duplicate_layer_none img a0 hA]
        rcases dup_layer_shape img a0 with h | ⟨l', h, hid⟩
        · rw [h]; exact ⟨hwf, hinv⟩
        · rw [h]; exact append_fresh_layer_preserves img l' hwf hinv hid
    · rcases dup_layer_shape img r with h | ⟨l', h, hid⟩
      · rw [h]; exact ⟨hwf, hinv⟩
      · rw [h]; exact append_fresh_layer_preserves img l' hwf hinv hid
  | cloneLayer a =>
    show wf_image (image_clone_layer img a) ∧ active_inv_amended (image_clone_layer img a)
    rcases a with _ | r
    · rcases hA : img.activeLayer with _ | a0
      · exfalso
        apply hinv.1
        have := hinv.2.1
        rw [hA] at this
        exact this
      · rw [image_clone_layer_none img a0 hA]
        rcases clone_layer_shape img a0 with h | ⟨l', h, hid⟩
        · rw [h]; exact ⟨hwf, hinv⟩
        · rw [h]; exact append_fresh_layer_preserves img l' hwf hinv hid
    · rcases clone_layer_shape img r with h | ⟨l', h, hid⟩
      · rw [h]; exact ⟨hwf, hinv⟩
      · rw [h]; exact append_fresh_layer_preserves img l' hwf hinv hid
  | addCamera a =>
    obtain ⟨c, hshape, hfresh⟩ := add_camera_shape img a hok
    show wf_image (image_add_camera img a) ∧ active_inv_amended (image_add_camera img a)
    rw [hshape]
    exact append_fresh_camera_preserves img c hwf hinv hfresh
  | deleteCamera a =>
    show wf_image (image_delete_camera img a) ∧ active_inv_amended (image_delete_camera img a)
    rcases a with _ | r
    · rcases hA : img.activeCamera with _ | a0
      · have : image_delete_camera img none = img := by
          unfold image_delete_camera
          simp [optOr, hA]
        rw [this]
        exact ⟨hwf, hinv⟩
      · rw [image_delete_camera_none img a0 hA]
        exact delete_camera_preserves img a0 hwf hinv
    · exact delete_camera_preserves img r hwf hinv
  | moveCamera a d =>
    show wf_image (image_move_camera img a d) ∧ active_inv_amended (image_move_camera img a d)
    rcases a with _ | r
    · rcases hA : img.activeCamera with _ | a0
      · have : image_move_camera img none d = img := by
          unfold image_move_camera
          simp [optOr, hA]
        rw [this]
        exact ⟨hwf, hinv⟩
      · rw [image_move_camera_none img a0 d hA]
        rcases move_camera_shape img a0 d with h | ⟨i, h⟩
        · rw [h]; exact ⟨hwf, hinv⟩
        · rw [h]; exact perm_cameras_preserves img _ (swapAdj_perm _ _) hwf hinv
    · rcases move_camera_shape img r d with h | ⟨i, h⟩
      · rw [h]; exact ⟨hwf, hinv⟩
      · rw [h]; exact perm_cameras_preserves img _ (swapAdj_perm _ _) hwf hinv
  | addMaterial a =>
    obtain ⟨m, hshape, hfresh⟩ := add_material_shape img a hok
    show wf_image (image_add_material img a) ∧ active_inv_amended (image_add_material img a)
    rw [hshape]
    exact append_fresh_material_preserves img m hwf hinv hfresh
  | deleteMaterial a =>
    show wf_image (image_delete_material img a) ∧ active_inv_amended (image_delete_material img a)
    rcases a with _ | r
    · rcases hA : img.activeMaterial with _ | a0
      · have : image_delete_material img none = img := by
          unfold image_delete_material
          simp [optOr, hA]
        rw [this]
        exact ⟨hwf, hinv⟩
      · rw [image_delete_material_none img a0 hA]
        exact delete_material_preserves img a0 hwf hinv
    · exact delete_material_preserves img r hwf hinv

/-- C4 amended witness: deleting the active material of the concrete
two-material fixture preserves well-formedness and the amended invariant. -/
theorem c4_active_refs_amended_witness :
    wf_image (applyOp matTestImg (Op.deleteMaterial none)) ∧
    active_inv_amended (applyOp matTestImg (Op.deleteMaterial none)) :=
  c4_active_refs_amended matTestImg (Op.deleteMaterial none)
    (by decide) (by decide) (by decide)

theorem set_self_of_getElem {α : Type} : ∀ (l : List α) (i : Nat) (a : α),
    l[i]? = some a → l.set i a = l := by
  intro l
  induction l with
  | nil => intro i a h; cases h
  | cons x t ih =>
    intro i a h
    cases i with
    | zero =>
      obtain rfl : x = a := by simpa using h
      rfl
    | succ n =>
      have h' : t[n]? = some a := by simpa using h
      show x :: t.set n a = x :: t
      rw [ih n a h']

theorem sync_base_none (L : List Layer) (i : Nat) (layer : Layer)
    (hfb : find_base_idx L layer.base_id = none) :
    sync_base L i layer = layer := by
  unfold sync_base
  rw [hfb]

theorem sync_base_nobase (L : List Layer) (i : Nat) (layer : Layer) (j : Nat)
    (hfb : find_base_idx L layer.base_id = some j) (hLj : L[j]? = none) :
    sync_base L i layer = layer := by
  unfold sync_base
  rw [hfb]
  show (match L[j]? with
    | none => layer
    | some base => sync_base_with i j base layer) = layer
  rw [hLj]

theorem sync_base_some (L : List Layer) (i : Nat) (layer : Layer) (j : Nat) (base : Layer)
    (hfb : find_base_idx L layer.base_id = some j) (hLj : L[j]? = some base) :
    sync_base L i layer = sync_base_with i j base layer := by
  unfold sync_base
  rw [hfb]
  show (match L[j]? with
    | none => layer
    | some base => sync_base_with i j base layer) = sync_base_with i j base layer
  rw [hLj]

theorem sync_base_field {β : Type} (f : Layer → β)
    (hf : ∀ l m k, f { l with mesh := m, base_mesh_key := k } = f l)
    (L : List Layer) (i : Nat) (layer : Layer) :
    f (sync_base L i layer) = f layer := by
  rcases hfb : find_base_idx L layer.base_id with _ | j
  · rw [sync_base_none L i layer hfb]
  · rcases hLj : L[j]? with _ | base
    · rw [sync_base_nobase L i layer j hfb hLj]
    · rw [sync_base_some L i layer j base hfb hLj]
      unfold sync_base_with
      by_cases hk : layer.base_mesh_key = mesh_get_key base.mesh
      · rw [if_pos hk]
      · rw [if_neg hk]
        exact hf layer _ _

theorem sync_shape_none (box : Nat) (l : Layer) (h : l.shape = none) :
    sync_shape box l = l := by
  unfold sync_shape
  rw [h]

theorem sync_shape_some (box : Nat) (l : Layer) (sh : Nat) (h : l.shape = some sh) :
    sync_shape box l = (if shape_key_of l sh = l.shape_key then l
      else { l with mesh := Mesh.rast sh l.color box l.mat, shape_key := shape_key_of l sh }) := by
  unfold sync_shape
  rw [h]

theorem sync_shape_field {β : Type} (f : Layer → β)
    (hf : ∀ l m k, f { l with mesh := m, shape_key := k } = f l)
    (box : Nat) (l : Layer) :
    f (sync_shape box l) = f l := by
  rcases hsh : l.shape with _ | sh
  · rw [sync_shape_none box l hsh]
  · rw [sync_shape_some box l sh hsh]
    by_cases hk : shape_key_of l sh = l.shape_key
    · rw [if_pos hk]
    · rw [if_neg hk]
      exact hf l _ _

theorem sync_shape_base_mesh_key (box : Nat) (l : Layer) :
    (sync_shape box l).base_mesh_key = l.base_mesh_key :=
  sync_shape_field Layer.base_mesh_key (fun _ _ _ => rfl) box l

theorem sync_shape_idem (box : Nat) (l : Layer) :
    sync_shape box (sync_shape box l) = sync_shape box l := by
  rcases hsh : l.shape with _ | sh
  · rw [sync_shape_none box l hsh, sync_shape_none box l hsh]
  · rw [sync_shape_some box l sh hsh]
    by_cases hk : shape_key_of l sh = l.shape_key
    · rw [if_pos hk, sync_shape_some box l sh hsh, if_pos hk]
    · rw [if_neg hk]
      have hsh' : ({ l with mesh := Mesh.rast sh l.color box l.mat, shape_key := shape_key_of l sh } : Layer).shape = some sh := hsh
      rw [sync_shape_some box _ sh hsh']
      have hc : shape_key_of { l with mesh := Mesh.rast sh l.color box l.mat, shape_key := shape_key_of l sh } sh
          = ({ l with mesh := Mesh.rast sh l.color box l.mat, shape_key := shape_key_of l sh } : Layer).shape_key := rfl
      rw [if_pos hc]

theorem step_length (box : Nat) (L : List Layer) (i : Nat) :
    (image_update_step box L i).length = L.length := by
  unfold image_update_step
  rcases L[i]? with _ | l
  · rfl
  · simp

theorem step_getElem_ne (box : Nat) (L : List Layer) (i k : Nat) (hk : k ≠ i) :
    (image_update_step box L i)[k]? = L[k]? := by
  unfold image_update_step
  rcases L[i]? with _ | l
  · rfl
  · exact List.getElem?_set_ne (fun h => hk h.symm)

theorem step_getElem_self (box : Nat) (L : List Layer) (i : Nat) (layer : Layer)
    (h : L[i]? = some layer) :
    (image_update_step box L i)[i]? = some (sync_shape box (sync_base L i layer)) := by
  unfold image_update_step
  rw [h]
  have hi : i < L.length := by
    by_contra hge
    rw [List.getElem?_eq_none (by omega)] at h
    cases h
  exact List.getElem?_set_self hi

theorem step_map_field {β : Type} (f : Layer → β)
    (hf1 : ∀ l m k, f { l with mesh := m, base_mesh_key := k } = f l)
    (hf2 : ∀ l m k, f { l with mesh := m, shape_key := k } = f l)
    (box : Nat) (L : List Layer) (i : Nat) :
    (image_update_step box L i).map f = L.map f := by
  unfold image_update_step
  rcases h : L[i]? with _ | layer
  · rfl
  · rw [List.map_set]
    rw [sync_shape_field f hf2, sync_base_field f hf1]
    apply set_self_of_getElem
    rw [List.getElem?_map, h]
    rfl

theorem upd_from_length (box : Nat) : ∀ (fuel start : Nat) (L : List Layer),
    (upd_from box L start fuel).length = L.length := by
  intro fuel
  induction fuel with
  | zero => intro start L; rfl
  | succ f ih =>
    intro start L
    show (upd_from box (image_update_step box L start) (start + 1) f).length = L.length
    rw [ih, step_length]

theorem upd_from_stable (box : Nat) : ∀ (fuel start : Nat) (L : List Layer) (k : Nat),
    k < start → (upd_from box L start fuel)[k]? = L[k]? := by
  intro fuel
  induction fuel with
  | zero => intro start L k _; rfl
  | succ f ih =>
    intro start L k hk
    show (upd_from box (image_update_step box L start) (start + 1) f)[k]? = L[k]?
    rw [ih (start + 1) _ k (by omega), step_getElem_ne box L start k (by omega)]

theorem upd_from_map_field {β : Type} (f : Layer → β)
    (hf1 : ∀ l m k, f { l with mesh := m, base_mesh_key := k } = f l)
    (hf2 : ∀ l m k, f { l with mesh := m, shape_key := k } = f l)
    (box : Nat) : ∀ (fuel start : Nat) (L : List Layer),
    (upd_from box L start fuel).map f = L.map f := by
  intro fuel
  induction fuel with
  | zero => intro start L; rfl
  | succ f' ih =>
    intro start L
    show (upd_from box (image_update_step box L start) (start + 1) f').map f = L.map f
    rw [ih, step_map_field f hf1 hf2]

theorem findIdx?_id_congr (b : Nat) : ∀ (i : Nat) (L1 L2 : List Layer),
    L1.map Layer.id = L2.map Layer.id →
    L1.findIdx? (fun l => l.id == b) i = L2.findIdx? (fun l => l.id == b) i := by
  intro i L1
  induction L1 generalizing i with
  | nil =>
    intro L2 h
    have : L2 = [] := by
      cases L2 with
      | nil => rfl
      | cons c t => simp at h
    rw [this]
  | cons a t ih =>
    intro L2 h
    cases L2 with
    | nil => simp at h
    | cons c u =>
      simp only [List.map_cons, List.cons.injEq] at h
      rw [List.findIdx?_cons, List.findIdx?_cons, h.1, ih (i + 1) u h.2]

theorem find_base_idx_congr (L1 L2 : List Layer)
    (h : L1.map Layer.id = L2.map Layer.id) (b : Nat) :
    find_base_idx L1 b = find_base_idx L2 b := by
  unfold find_base_idx
  by_cases hb : b = 0
  · simp [hb]
  · rw [if_neg hb, if_neg hb]
    exact findIdx?_id_congr b 0 L1 L2 h

theorem step_none (box : Nat) (L : List Layer) (i : Nat) (h : L[i]? = none) :
    image_update_step box L i = L := by
  unfold image_update_step
  rw [h]

theorem step_some (box : Nat) (L : List Layer) (i : Nat) (layer : Layer)
    (h : L[i]? = some layer) :
    image_update_step box L i = L.set i (sync_shape box (sync_base L i layer)) := by
  unfold image_update_step
  rw [h]

theorem step_map_id (box : Nat) (L : List Layer) (i : Nat) :
    (image_update_step box L i).map Layer.id = L.map Layer.id :=
  step_map_field Layer.id (fun _ _ _ => rfl) (fun _ _ _ => rfl) box L i

theorem step_map_base_id (box : Nat) (L : List Layer) (i : Nat) :
    (image_update_step box L i).map Layer.base_id = L.map Layer.base_id :=
  step_map_field Layer.base_id (fun _ _ _ => rfl) (fun _ _ _ => rfl) box L i

theorem upd_from_map_id (box : Nat) (fuel start : Nat) (L : List Layer) :
    (upd_from box L start fuel).map Layer.id = L.map Layer.id :=
  upd_from_map_field Layer.id (fun _ _ _ => rfl) (fun _ _ _ => rfl) box fuel start L

theorem sync_base_base_id (L : List Layer) (i : Nat) (layer : Layer) :
    (sync_base L i layer).base_id = layer.base_id :=
  sync_base_field Layer.base_id (fun _ _ _ => rfl) L i layer

theorem sync_shape_base_id (box : Nat) (l : Layer) :
    (sync_shape box l).base_id = l.base_id :=
  sync_shape_field Layer.base_id (fun _ _ _ => rfl) box l

theorem BwdP_of_bwdb (L : List Layer) (h : bases_backwardb L = true) : BwdP L := by
  intro i layer hlayer j hj
  have hi : i < L.length := by
    by_contra hge
    rw [List.getElem?_eq_none (by omega)] at hlayer
    cases hlayer
  have hall := List.all_eq_true.mp h i (List.mem_range.mpr hi)
  simp only [hlayer, hj] at hall
  exact of_decide_eq_true hall

theorem BwdP_congr (L1 L2 : List Layer)
    (hid : L2.map Layer.id = L1.map Layer.id)
    (hbase : L2.map Layer.base_id = L1.map Layer.base_id)
    (h : BwdP L1) : BwdP L2 := by
  intro i layer2 hl2 j hj
  have hb2 : (L2[i]?).map Layer.base_id = some layer2.base_id := by
    rw [hl2]
    rfl
  have hb1 : (L1[i]?).map Layer.base_id = some layer2.base_id := by
    rw [← List.getElem?_map, ← hbase, List.getElem?_map]
    exact hb2
  rcases h1 : L1[i]? with _ | layer1
  · rw [h1] at hb1
    cases hb1
  · rw [h1] at hb1
    have hbeq : layer1.base_id = layer2.base_id := by simpa using hb1
    apply h i layer1 h1 j
    rw [hbeq, ← find_base_idx_congr L2 L1 hid]
    exact hj

theorem upd_from_noop_range (box : Nat) :
    ∀ (fuel start : Nat) (S : List Layer), BwdP S →
      ∀ i, start ≤ i → i < start + fuel →
        image_update_step box (upd_from box S start fuel) i = upd_from box S start fuel := by
  intro fuel
  induction fuel with
  | zero =>
    intro start S _ i h1 h2
    omega
  | succ f ih =>
    intro start S hbwd i h1 h2
    have hbwd' : BwdP (image_update_step box S start) :=
      BwdP_congr S (image_update_step box S start)
        (step_map_id box S start) (step_map_base_id box S start) hbwd
    rcases Nat.lt_or_ge i (start + 1) with hlt | hge
    · have hieq : i = start := by omega
      subst hieq
      show image_update_step box (upd_from box (image_update_step box S i) (i + 1) f) i
          = upd_from box (image_update_step box S i) (i + 1) f
      rcases hSi : S[i]? with _ | layer
      · have hS'eq : image_update_step box S i = S := step_none box S i hSi
        rw [hS'eq]
        apply step_none
        rw [upd_from_stable box f (i + 1) S i (by omega)]
        exact hSi
      · have hS' : image_update_step box S i
            = S.set i (sync_shape box (sync_base S i layer)) := step_some box S i layer hSi
        have hilen : i < S.length := by
          by_contra hgeL
          rw [List.getElem?_eq_none (by omega)] at hSi
          cases hSi
        set l1 := sync_base S i layer with hl1
        set lstar := sync_shape box l1 with hlstar
        set F := upd_from box (image_update_step box S i) (i + 1) f with hF
        have hS'i : (image_update_step box S i)[i]? = some lstar := by
          rw [hS']
          exact List.getElem?_set_self (by simpa using hilen)
        have hFi : F[i]? = some lstar := by
          rw [hF, upd_from_stable box f (i + 1) _ i (by omega)]
          exact hS'i
        have hFid : F.map Layer.id = S.map Layer.id := by
          rw [hF, upd_from_map_id, step_map_id]
        have hbid : lstar.base_id = layer.base_id := by
          rw [hlstar, sync_shape_base_id, hl1, sync_base_base_id]
        have hbase : sync_base F i lstar = lstar := by
          rcases hfb : find_base_idx S layer.base_id with _ | j
          · apply sync_base_none
            rw [find_base_idx_congr F S hFid, hbid]
            exact hfb
          · have hj : j < i := hbwd i layer hSi j hfb
            have hfbF : find_base_idx F lstar.base_id = some j := by
              rw [find_base_idx_congr F S hFid, hbid]
              exact hfb
            have hFjS : F[j]? = S[j]? := by
              rw [hF, upd_from_stable box f (i + 1) _ j (by omega), hS']
              exact List.getElem?_set_ne (by omega)
            rcases hSj : S[j]? with _ | base
            · exact sync_base_nobase F i lstar j hfbF (by rw [hFjS]; exact hSj)
            · have hFj : F[j]? = some base := by rw [hFjS]; exact hSj
              rw [sync_base_some F i lstar j base hfbF hFj]
              unfold sync_base_with
              have hcache : lstar.base_mesh_key = mesh_get_key base.mesh := by
                rw [hlstar, sync_shape_base_mesh_key, hl1]
                rw [sync_base_some S i layer j base hfb hSj]
                unfold sync_base_with
                by_cases hk : layer.base_mesh_key = mesh_get_key base.mesh
                · rw [if_pos hk]
                  exact hk
                · rw [if_neg hk]
                  show mesh_get_key (if j = i then Mesh.move layer.mat base.mesh else base.mesh)
                      = mesh_get_key base.mesh
                  rw [if_neg (by omega : ¬ j = i)]
              rw [if_pos hcache]
        have hshape : sync_shape box lstar = lstar := by
          rw [hlstar]
          exact sync_shape_idem box l1
        rw [step_some box F i lstar hFi, hbase, hshape]
        exact set_self_of_getElem F i lstar hFi
    · show image_update_step box
          (upd_from box (image_update_step box S start) (start + 1) f) i
        = upd_from box (image_update_step box S start) (start + 1) f
      exact ih (start + 1) (image_update_step box S start) hbwd' i hge (by omega)

theorem upd_from_of_noop (box : Nat) : ∀ (fuel start : Nat) (M : List Layer),
    (∀ i, image_update_step box M i = M) → upd_from box M start fuel = M := by
  intro fuel
  induction fuel with
  | zero => intro start M _; rfl
  | succ f ih =>
    intro start M h
    show upd_from box (image_update_step box M start) (start + 1) f = M
    rw [h start]
    exact ih (start + 1) M h

theorem foldl_crc32_inj : ∀ (l1 l2 : List Nat) (s1 s2 : Nat), l1.length = l2.length →
    l1.foldl crc32 s1 = l2.foldl crc32 s2 → s1 = s2 ∧ l1 = l2 := by
  intro l1
  induction l1 with
  | nil =>
    intro l2 s1 s2 hl h
    have hnil : l2 = [] := by
      cases l2 with
      | nil => rfl
      | cons b u => simp at hl
    subst hnil
    exact ⟨h, rfl⟩
  | cons a t ih =>
    intro l2 s1 s2 hl h
    cases l2 with
    | nil => simp at hl
    | cons b u =>
      simp only [List.foldl_cons] at h
      have hlen : t.length = u.length := by simpa using hl
      obtain ⟨hs, ht⟩ := ih u (crc32 s1 a) (crc32 s2 b) hlen h
      unfold crc32 at hs
      have hp : Nat.pair s1 a = Nat.pair s2 b := by omega
      have := Nat.pair_eq_pair.mp hp
      exact ⟨this.1, by rw [this.2, ht]⟩

theorem image_get_key_eq_foldl (img : Image) :
    image_get_key img = (entity_keys img).foldl crc32 0 := by
  unfold image_get_key entity_keys
  rw [List.foldl_append, List.foldl_append, List.foldl_map, List.foldl_map, List.foldl_map]

theorem update_entity_keys_length (img : Image) :
    (entity_keys (image_update img)).length = (entity_keys img).length := by
  unfold entity_keys image_update image_update_layers
  simp [upd_from_length]

/-- C7 counterexample: the synchronization pass is not idempotent as
claimed.  In `updFwdImg`, layer 1 is a stale clone of layer 2, which sits
later in the list and is itself a stale shape layer: pass one syncs the
clone from the source's old mesh and only then rasterizes the source, so
pass two finds the cached `base_mesh_key` stale again and mutates the
clone's mesh a second time. -/
theorem c7_update_counterexample :
    image_update (image_update updFwdImg) ≠ image_update updFwdImg ∧
    (image_update (image_update updFwdImg)).layers.map Layer.mesh
      ≠ (image_update updFwdImg).layers.map Layer.mesh := by
  decide

/-- C7 amended: (1) the pass is idempotent — a second consecutive call
performs zero mutation — provided every clone's source resolves to a
strictly earlier list position (the natural state, since clones are
appended after their sources; the original claim fails only on forward
references); (2) a pass that finds nothing dirty (decided purely by the
cached-key comparisons) leaves the document, hence its key, unchanged;
(3) the document key is unchanged by a pass if and only if every entity's
own content key is unchanged. -/
theorem c7_update_amended (img : Image) :
    (bases_backwardb img.layers = true →
      image_update (image_update img) = image_update img) ∧
    (nothing_dirtyb img = true →
      image_update img = img ∧ image_get_key (image_update img) = image_get_key img) ∧
    (image_get_key (image_update img) = image_get_key img ↔
      entity_keys (image_update img) = entity_keys img) := by
  refine ⟨?_, ?_, ?_⟩
  · intro hb
    have hbwd := BwdP_of_bwdb img.layers hb
    set M := image_update_layers img.box img.layers with hM
    have hnoop : ∀ i, image_update_step img.box M i = M := by
      intro i
      by_cases hi : i < img.layers.length
      · exact upd_from_noop_range img.box img.layers.length 0 img.layers hbwd i
          (by omega) (by omega)
      · apply step_none
        apply List.getElem?_eq_none
        rw [hM]
        show (upd_from img.box img.layers 0 img.layers.length).length ≤ i
        rw [upd_from_length]
        omega
    show image_update { img with layers := M } = { img with layers := M }
    unfold image_update
    have hfix : image_update_layers ({ img with layers := M } : Image).box
        ({ img with layers := M } : Image).layers = M := by
      show upd_from img.box M 0 M.length = M
      exact upd_from_of_noop img.box M.length 0 M hnoop
    rw [hfix]
  · intro hd
    have hall : ∀ l ∈ img.layers, layer_cleanb img.layers l = true :=
      List.all_eq_true.mp hd
    have hnoop : ∀ i, image_update_step img.box img.layers i = img.layers := by
      intro i
      rcases hSi : img.layers[i]? with _ | layer
      · exact step_none _ _ _ hSi
      · have hc := hall layer (List.getElem?_mem hSi)
        unfold layer_cleanb at hc
        rw [Bool.and_eq_true] at hc
        have hbase : sync_base img.layers i layer = layer := by
          rcases hfb : find_base_idx img.layers layer.base_id with _ | j
          · exact sync_base_none _ _ _ hfb
          · rcases hLj : img.layers[j]? with _ | b
            · exact sync_base_nobase _ _ _ j hfb hLj
            · have hc1 := hc.1
              rw [hfb] at hc1
              have hc1' : (match img.layers[j]? with
                  | none => true
                  | some b => layer.base_mesh_key == mesh_get_key b.mesh) = true := hc1
              rw [hLj] at hc1'
              have hk : layer.base_mesh_key = mesh_get_key b.mesh := by
                exact eq_of_beq hc1'
              rw [sync_base_some _ _ _ j b hfb hLj]
              unfold sync_base_with
              rw [if_pos hk]
        have hshape : sync_shape img.box layer = layer := by
          rcases hsh : layer.shape with _ | sh
          · exact sync_shape_none _ _ hsh
          · have hc2 := hc.2
            rw [hsh] at hc2
            have hc2' : (shape_key_of layer sh == layer.shape_key) = true := hc2
            rw [sync_shape_some _ _ sh hsh, if_pos (eq_of_beq hc2')]
        rw [step_some _ _ _ layer hSi, hbase, hshape]
        exact set_self_of_getElem _ _ _ hSi
    have hupd : image_update img = img := by
      unfold image_update
      have hfix : image_update_layers img.box img.layers = img.layers := by
        show upd_from img.box img.layers 0 img.layers.length = img.layers
        exact upd_from_of_noop img.box img.layers.length 0 img.layers hnoop
      rw [hfix]
    exact ⟨hupd, by rw [hupd]⟩
  · constructor
    · intro h
      rw [image_get_key_eq_foldl, image_get_key_eq_foldl] at h
      exact (foldl_crc32_inj _ _ 0 0 (update_entity_keys_length img) h).2
    · intro h
      rw [image_get_key_eq_foldl, image_get_key_eq_foldl, h]

/-- C7 amended witness: the backward-clone fixture is idempotent under the
pass (which does mutate it once); the clean one-layer fixture is untouched
by the pass; the key-iff clause instantiated at the forward fixture. -/
theorem c7_update_amended_witness :
    image_update (image_update updBwdImg) = image_update updBwdImg ∧
    image_update testImg = testImg ∧
    (image_get_key (image_update updFwdImg) = image_get_key updFwdImg ↔
      entity_keys (image_update updFwdImg) = entity_keys updFwdImg) :=
  ⟨(c7_update_amended updBwdImg).1 (by decide),
   ((c7_update_amended testImg).2.1 (by decide)).1,
   (c7_update_amended updFwdImg).2.2⟩
